import Mathlib

/-!
# Star Collector: the player-status state machine

A shallow embedding of `src/star-collector.js` and `src/util.js`.

The game keeps its state in module-level variables that are mutated by the
engine's collision callbacks, by the key-combo handler, by the per-frame
`update` function and by callbacks delayed with `wait` (a `setTimeout`).
Here the variables are the fields of `State`, every handler is a function
`State → State`, and the engine is a step relation: an `Event` is enabled in
a state when the engine could deliver it there, and `step` runs the handler.

Conventions of the embedding.

* `wait ms` registers a pending callback due at `now + ms`; the event
  `Event.timer` runs the pending callback that is due first (ties in
  registration order) once the clock has reached it, and `Event.elapse`
  never moves the clock past a pending callback: callbacks are punctual.
* A random roll `Math.floor(Math.random() * 100) / 100` is the natural number
  of hundredths `0 .. 99`; spawn rates are hundredths too, so `r < spawnRate`
  compares the same two decimals as the source.
* Engine-owned bodies are kept as far as the handlers can observe them: a star
  or bomb is its `active` flag, a power-up is its `visible` flag
  (`disableBody(true, true)` clears, `enableBody(..., true, true)` sets it),
  the player is its vertical position and its velocity. Positions and
  velocities of stars, bombs and power-ups, texts, tints and sounds are not
  part of the state.
* `physics.shutdown()` and `keyboard.removeAllListeners()` in `gameOver`
  are the flags `physicsRunning` and `keyboardListening`; collision callbacks
  need the first, the key-combo handler the second.
* The keyboard plugin may report any list of key codes as a matched combo, any
  number of times, while the listener is installed; a frame may come at any
  moment. Clicks on the pause and resume buttons reach the engine and the
  texts only and are not events.
* The built-ins `split(",")` and `parseInt(·, 10)` are written out for the keys
  of the combos, which are made of decimal digits and commas; local storage
  holds a natural number or nothing.
* `debug` is the constant `false` of the source; `lives` is an integer.
-/

namespace StarCollector

/-! ## Constants -/

def debug : Bool := false

def TIME.MERCY : Nat := 3000
def TIME.MESSAGE : Nat := 2000
def TIME.RUNNING : Nat := 5000

def SPEED.WALK : Int := 160
def SPEED.RUN : Int := 250
def SPEED.JUMP : Int := 330
def SPEED.BOUNCE : Int := 0
def SPEED.GROUND_POUND : Int := 500

def STARTING_LIVES : Int := 5

def BONUS_LIFE_LEVELS : Nat := 0

def canvas.width : Int := 800
def canvas.height : Int := 600

/-- The message of the assertion at the end of `update`. -/
def assertMessage : String := "canDestroy is true, but invincible is false"

/-! ## Power-ups -/

/-- The keys of `assets.powerups`, in the order of `Object.entries`. -/
inductive PowerupKey
  | ultimate
  | armor
  | invincibility
  | oneUp
  | stop
  deriving DecidableEq, Repr

/-- The keys in iteration order. -/
def powerupKeys : List PowerupKey :=
  [.ultimate, .armor, .invincibility, .oneUp, .stop]

/-- The field `spawnRate`, in hundredths. -/
def spawnRate : PowerupKey → Nat
  | .ultimate => 5
  | .armor => 40
  | .invincibility => 30
  | .oneUp => 60
  | .stop => 0

/-- The field `duration`, in milliseconds. -/
def duration : PowerupKey → Nat
  | .ultimate => 10000
  | .armor => TIME.MERCY / 2
  | .invincibility => 10000
  | .oneUp => TIME.MERCY / 2
  | .stop => 10000

/-- The `visible` flag of each power-up sprite (`powerups[key]["ref"]`). -/
structure PowerupRefs where
  ultimate : Bool
  armor : Bool
  invincibility : Bool
  oneUp : Bool
  stop : Bool
  deriving DecidableEq, Repr

def PowerupRefs.visible (r : PowerupRefs) : PowerupKey → Bool
  | .ultimate => r.ultimate
  | .armor => r.armor
  | .invincibility => r.invincibility
  | .oneUp => r.oneUp
  | .stop => r.stop

def PowerupRefs.setVisible (r : PowerupRefs) (key : PowerupKey) (b : Bool) : PowerupRefs :=
  match key with
  | .ultimate => { r with ultimate := b }
  | .armor => { r with armor := b }
  | .invincibility => { r with invincibility := b }
  | .oneUp => { r with oneUp := b }
  | .stop => { r with stop := b }

/-- Every power-up after `disableBody(true, true)`. -/
def PowerupRefs.none : PowerupRefs := ⟨false, false, false, false, false⟩

/-! ## Delayed callbacks -/

/-- The functions passed to `wait(...).then`, named after where they are written. -/
inductive Callback
  /-- The end of the ultimate potion (line 290). -/
  | ultimateEnd
  /-- The end of the armor message (line 330). -/
  | armorEnd
  /-- The end of the invincibility potion (line 346). -/
  | invincibilityEnd
  /-- The end of the extra-life message (line 365). -/
  | oneUpEnd
  /-- The end of the stop power-up (line 400). -/
  | stopEnd
  /-- The end of the invincibility given by absorbing armor (line 648). -/
  | armorMercy
  /-- The first callback after a life-losing hit (line 660). -/
  | mercy (ouch : Bool)
  /-- The second callback of a first ground-pound hit (line 670), run after the inner `wait`. -/
  | mercyEnd
  /-- The end of the bonus-life invincibility (line 790). -/
  | bonusLife
  /-- One round of the Konami message loop (line 857). -/
  | konami (counter : Nat)
  /-- A `resetInfoText` after a cheat message (lines 870 and 894). -/
  | message
  /-- The callback of a running frame (line 941). -/
  | tired
  /-- The callback of a walking frame (line 944). -/
  | rested
  deriving DecidableEq, Repr

/-- A pending `setTimeout`. -/
structure Timer where
  due : Nat
  cb : Callback
  deriving DecidableEq, Repr

/-! ## The state -/

structure State where
  score : Nat
  level : Nat
  lives : Int
  /-- The constant `highScore`, read from local storage at startup. -/
  highScore : Nat
  /-- The number stored under the local-storage key `"highScore"`, if any. -/
  storage : Option Nat
  upKeyDown : Bool
  jumpEnabled : Bool
  invincible : Bool
  canDestroy : Bool
  invinciblePowerup : Bool
  invincibleGroundPound : Bool
  isTired : Bool
  daredevil : Bool
  bombGroundPounded : Bool
  gameIsOver : Bool
  hasArmor : Bool
  /-- The `active` flag of each member of the group `stars`. -/
  stars : List Bool
  /-- The `active` flag of each member of the group `bombs`. -/
  bombs : List Bool
  powerups : PowerupRefs
  playerY : Int
  playerVelX : Int
  playerVelY : Int
  physicsRunning : Bool
  keyboardListening : Bool
  now : Nat
  timers : List Timer
  deriving DecidableEq, Repr

/-- The state when `create` has returned; `stored` is what local storage holds. -/
def init (stored : Option Nat) : State where
  score := 0
  level := 1
  lives := STARTING_LIVES
  highScore := match stored with
    | some n => n
    | none => 0
  storage := stored
  upKeyDown := false
  jumpEnabled := false
  invincible := false
  canDestroy := false
  invinciblePowerup := false
  invincibleGroundPound := false
  isTired := false
  daredevil := false
  bombGroundPounded := false
  gameIsOver := false
  hasArmor := false
  stars := List.replicate (11 + 1) true
  bombs := []
  powerups := PowerupRefs.none
  playerY := canvas.height - 220
  playerVelX := 0
  playerVelY := 0
  physicsRunning := true
  keyboardListening := true
  now := 0
  timers := []

/-- The call `wait(ms).then(cb)`. -/
def wait (ms : Nat) (cb : Callback) (s : State) : State :=
  { s with timers := s.timers ++ [⟨s.now + ms, cb⟩] }

/-! ## Helper functions of the source -/

def despawnPowerUps (s : State) : State :=
  { s with powerups := powerupKeys.foldl (fun r key => r.setVisible key false) s.powerups }

def despawnEverything (s : State) : State :=
  despawnPowerUps
    { s with bombs := s.bombs.map (fun _ => false), stars := s.stars.map (fun _ => false) }

def createBomb (s : State) : State :=
  { s with bombs := s.bombs ++ [true] }

def gameOver (s : State) : State :=
  let s := { s with gameIsOver := true }
  let s := { s with invincible := false }
  let s := { s with lives := 0 }
  let s := despawnEverything s
  let s := { s with physicsRunning := false }
  let s := { s with keyboardListening := false }
  if !debug && decide (s.score > s.highScore) then { s with storage := some s.score } else s

def levelCheck (level : Nat) (levels : List Nat) : Bool :=
  levels.foldl (fun isLevel lev => isLevel || level == lev) false

/-- The listener of `beforeunload`. -/
def beforeunload (s : State) : State :=
  if !debug && decide (s.score > s.highScore) then { s with storage := some s.score } else s

/-- The method `stars.countActive(true)`. -/
def countActive (group : List Bool) : Nat :=
  group.count true

/-! ## Collecting a power-up -/

def onCollect : PowerupKey → State → State
  | .ultimate, s =>
    let s := { s with invincible := true }
    let s := { s with canDestroy := true }
    let s := { s with invinciblePowerup := true }
    let s := { s with lives := s.lives + 1 }
    wait (duration .ultimate) .ultimateEnd s
  | .armor, s =>
    let s := { s with hasArmor := true }
    wait (duration .armor) .armorEnd s
  | .invincibility, s =>
    if !s.invincible && !s.canDestroy then
      let s := { s with invincible := true }
      let s := { s with canDestroy := true }
      let s := { s with invinciblePowerup := true }
      wait (duration .invincibility) .invincibilityEnd s
    else s
  | .oneUp, s =>
    let s := { s with lives := s.lives + 1 }
    wait (duration .oneUp) .oneUpEnd s
  | .stop, s =>
    wait (duration .stop) .stopEnd s

/-- The overlap callback of the player and the power-up `key` (line 613). -/
def powerupOverlap (key : PowerupKey) (s : State) : State :=
  onCollect key { s with powerups := s.powerups.setVisible key false }

/-! ## The collision of the player with a bomb (line 634) -/

def bombCollide (bomb : Nat) (down : Bool) (s : State) : State :=
  let s := if s.canDestroy && !s.invincible then { s with canDestroy := false } else s
  let groundPounding := down && !s.jumpEnabled && !s.invinciblePowerup
  let s :=
    if s.invincibleGroundPound && groundPounding then
      { s with invincible := true, canDestroy := true }
    else s
  let s :=
    if !s.invincible && s.hasArmor then
      let s := { s with hasArmor := false }
      let s := { s with invincible := true }
      let s := { s with canDestroy := false }
      wait TIME.MERCY .armorMercy s
    else if !s.invincible then
      let s := { s with lives := s.lives - 1 }
      if s.lives ≥ 1 then
        let ouch := groundPounding && !s.bombGroundPounded
        let s := { s with playerY := canvas.height - 80 }
        let s := { s with invincible := true }
        let s := { s with canDestroy := false }
        wait (TIME.MERCY / (if ouch then 2 else 1)) (.mercy ouch) s
      else
        gameOver s
    else if s.canDestroy then
      let s := { s with bombs := s.bombs.set bomb false }
      { s with score := s.score + 20 }
    else s
  if s.invincibleGroundPound && groundPounding then
    { s with invincible := false, canDestroy := false }
  else s

/-! ## The overlap of the player with a star (line 697) -/

/-- The loop over the power-ups at a level above 5: `k` counts the rolls drawn so far. -/
def spawnLoop (rolls : Nat → Nat) : List PowerupKey → Nat → PowerupRefs → PowerupRefs
  | [], _, refs => refs
  | key :: rest, k, refs =>
    let randomNumber := rolls k
    let willSpawn := !refs.visible key && decide (randomNumber < spawnRate key)
    if willSpawn then refs.setVisible key true
    else spawnLoop rolls rest (k + 1) refs

/-- Lines 732 to 780: the power-up that a completed level spawns. -/
def spawnPowerup (rolls : Nat → Nat) (s : State) : State :=
  if s.level > 5 then
    { s with powerups := spawnLoop rolls powerupKeys 0 s.powerups }
  else if levelCheck s.level [4] then
    { s with powerups := s.powerups.setVisible .oneUp true }
  else if levelCheck s.level [5] then
    let randomNumber := rolls 0
    if randomNumber < 50 then
      { s with powerups := s.powerups.setVisible .armor true }
    else s
  else s

/-- Lines 785 to 794: the bonus life. -/
def bonusLife (s : State) : State :=
  if decide (BONUS_LIFE_LEVELS > 0) && !s.daredevil && !debug
      && s.level % BONUS_LIFE_LEVELS == 0 then
    let s := { s with lives := s.lives + 1 }
    let s := { s with invincible := true }
    wait TIME.MESSAGE .bonusLife s
  else s

/-- Lines 714 to 794: every star has been collected. -/
def levelUp (rolls : Nat → Nat) (s : State) : State :=
  let s := { s with level := if s.level ≥ 1 then s.level + 1 else s.level }
  let s := { s with stars := s.stars.map (fun _ => true) }
  let s := createBomb s
  if s.daredevil then s
  else bonusLife (spawnPowerup rolls s)

def starOverlap (star : Nat) (rolls : Nat → Nat) (s : State) : State :=
  let s := { s with stars := s.stars.set star false }
  let s := { s with score := s.score + 10 }
  if countActive s.stars == 0 then levelUp rolls s
  else s

/-! ## Cheat codes -/

/-- The function `keyCodes` of the source: the loop over `i < len`. -/
def keyCodes (str : String) : String :=
  let len := str.length
  (List.range len).foldl
    (fun result i =>
      result ++ (toString ((str.data.map Char.toUpper).getD i (Char.ofNat 0)).toNat
        ++ (if i != len - 1 then "," else "")))
    ""

def keyCodesPlusEnter (str : String) : String :=
  keyCodes str ++ ",13"

/-- The handlers stored in `codesMap` and `repeatingCodesMap`. -/
inductive Cheat
  | konami
  | reverseKonami
  | powerups
  | bomb
  | daredevil
  | kill
  deriving DecidableEq, Repr

def codesMap : List (String × Cheat) :=
  [("38,38,40,40,37,39,37,39,66,65", .konami),
   (keyCodesPlusEnter "daredevil", .daredevil),
   (keyCodesPlusEnter "kill", .kill)]

def repeatingCodesMap : List (String × Cheat) :=
  [("40,40,38,38,39,37,39,37,65,66", .reverseKonami),
   (keyCodes "powerups", .powerups),
   (keyCodes "bomb", .bomb)]

/-- The body of each cheat handler. -/
def runCheat : Cheat → State → State
  | .konami, s =>
    let s := { s with invincible := false }
    let s := { s with gameIsOver := true }
    let s := despawnEverything s
    wait TIME.MESSAGE (.konami 0) s
  | .reverseKonami, s =>
    let s := { s with lives := s.lives + STARTING_LIVES }
    wait TIME.MESSAGE .message s
  | .powerups, s =>
    if debug then
      { s with powerups := powerupKeys.foldl (fun r key => r.setVisible key true) s.powerups }
    else s
  | .bomb, s =>
    if debug then createBomb s else s
  | .daredevil, s =>
    let s := { s with daredevil := true }
    let s := { s with lives := 1 }
    let s := despawnPowerUps s
    let s := { s with invincibleGroundPound := false }
    wait TIME.MESSAGE .message s
  | .kill, s => gameOver s

/-- The string `e.keyCodes + ""`. -/
def joinCodes (codes : List Nat) : String :=
  ",".intercalate (codes.map toString)

/-- The listener of `keycombomatch` (line 909); a code in neither map makes the
call of `undefined` throw, which leaves the variables as they are. -/
def keycombomatch (codes : List Nat) (s : State) : State :=
  if s.daredevil then s
  else
    let code := joinCodes codes
    match codesMap.lookup code with
    | some cheat => runCheat cheat s
    | none =>
      match repeatingCodesMap.lookup code with
      | some cheat => runCheat cheat s
      | none => s

/-! ## The registration of the combos (line 901) -/

/-- The loop of the method `split(",")` of a string: `cur` holds the current piece, last
character first. -/
def splitAux : List Char → List Char → List String
  | [], cur => [String.mk cur.reverse]
  | c :: cs, cur =>
    if c = ',' then String.mk cur.reverse :: splitAux cs []
    else splitAux cs (c :: cur)

/-- The call `key.split(",")`: the pieces of `key` between its commas. -/
def split (key : String) : List String :=
  splitAux key.data []

/-- The loop of `parseInt` over the leading decimal digits. -/
def parseDigits : List Char → Nat → Nat
  | [], acc => acc
  | c :: cs, acc => if c.isDigit then parseDigits cs (acc * 10 + (c.toNat - 48)) else acc

/-- The call `window.parseInt(element, 10)` for an element that starts with a digit: the
number written by its leading digits. Every other element gives `none`, which stands for
`NaN` and for the signed or indented numbers that the keys do not contain. -/
def parseInt (element : String) : Option Nat :=
  match element.data with
  | [] => none
  | c :: cs => if c.isDigit then some (parseDigits (c :: cs) 0) else none

/-- The array `codeArr` that the registration of a combo computes from its key (line 902). -/
def codeArr (key : String) : List (Option Nat) :=
  (split key).map parseInt

/-! ## The bodies of the delayed callbacks -/

/-- The body of a delayed callback; `shift` is `cursors.shift.isDown` when it runs. -/
def fire (cb : Callback) (shift : Bool) (s : State) : State :=
  match cb with
  | .ultimateEnd =>
    let s := { s with invincible := false }
    let s := { s with canDestroy := false }
    { s with invinciblePowerup := false }
  | .armorEnd => s
  | .invincibilityEnd =>
    let s := { s with invincible := false }
    let s := { s with canDestroy := false }
    { s with invinciblePowerup := false }
  | .oneUpEnd => s
  | .stopEnd => s
  | .armorMercy => { s with invincible := false }
  | .mercy ouch =>
    let s := { s with invincible := false }
    if ouch then
      let s := { s with invincible := true }
      let s := { s with bombGroundPounded := true }
      wait TIME.MERCY .mercyEnd s
    else
      { s with invincible := false }
  | .mercyEnd => { s with invincible := false }
  | .bonusLife => { s with invincible := false }
  | .konami counter =>
    if counter < 6 - 1 then wait TIME.MESSAGE (.konami (counter + 1)) s
    else gameOver s
  | .message => s
  | .tired => if shift then { s with isTired := true } else s
  | .rested => { s with isTired := false }

/-! ## The update loop (line 928) -/

/-- What `update` reads from the engine: the cursor keys and `player.body.touching.down`. -/
structure Input where
  up : Bool
  down : Bool
  left : Bool
  right : Bool
  shift : Bool
  touchingDown : Bool
  deriving DecidableEq, Repr

/-- The function `assert` of `util.js`: the message thrown, if any. -/
def assert (bool : Bool) (message : String) : Option String :=
  if !bool then some message else none

/-- The variables after a call of `update`, and the error it threw, if any. -/
structure UpdateResult where
  state : State
  thrown : Option String
  deriving DecidableEq, Repr

/-- Lines 938 to 949: walking, running and the ground pound. -/
def movePlayer (inp : Input) (s : State) : State :=
  if !inp.down then
    if inp.shift && !s.isTired then
      let s := { s with playerVelX :=
        if inp.left then -SPEED.RUN else if inp.right then SPEED.RUN else 0 }
      wait TIME.RUNNING .tired s
    else
      let s := { s with playerVelX :=
        if inp.left then -SPEED.WALK else if inp.right then SPEED.WALK else 0 }
      wait TIME.RUNNING .rested s
  else
    let s := { s with playerVelX := 0 }
    { s with playerVelY :=
      if !s.jumpEnabled || !inp.touchingDown then SPEED.GROUND_POUND else 0 }

/-- Lines 954 to 962: the jump. -/
def jumpPlayer (inp : Input) (s : State) : State :=
  if inp.up then
    if !s.upKeyDown && s.jumpEnabled then
      let s := { s with playerVelY := -SPEED.JUMP }
      let s := { s with jumpEnabled := false }
      { s with upKeyDown := true }
    else
      { s with upKeyDown := true }
  else
    { s with upKeyDown := false }

/-- Line 986: the player that clipped through the bottom platform is put back. -/
def unstick (s : State) : State :=
  if s.playerY ≥ 530 then { s with playerY := 510 } else s

def update (inp : Input) (s : State) : UpdateResult :=
  if s.gameIsOver then ⟨s, none⟩
  else
    let s := movePlayer inp s
    let s := jumpPlayer inp s
    let s := { s with jumpEnabled := inp.touchingDown }
    let s := unstick s
    ⟨s, assert (!s.canDestroy || s.invincible) assertMessage⟩

/-! ## The engine -/

inductive Event
  /-- One frame: the engine calls `update`. -/
  | frame (inp : Input)
  /-- The physics engine moves the player between two frames. -/
  | physics (y velX velY : Int)
  /-- The player touches the bomb number `bomb`; `down` is `cursors.down.isDown`. -/
  | bombHit (bomb : Nat) (down : Bool)
  /-- The player touches the star number `star`; `rolls k` is the roll number `k` drawn. -/
  | starCollect (star : Nat) (rolls : Nat → Nat)
  /-- The player touches a power-up. -/
  | powerupCollect (key : PowerupKey)
  /-- The keyboard plugin reports a matched combo with these key codes. -/
  | keycombo (codes : List Nat)
  /-- The pending callback that is due first runs. -/
  | timer (shift : Bool)
  /-- Time passes. -/
  | elapse (ms : Nat)

/-- The pending callback that is due first, the one registered first among equals. -/
def earliest : List Timer → Option Timer
  | [] => none
  | t :: ts =>
    match earliest ts with
    | none => some t
    | some u => if u.due < t.due then some u else some t

/-- One event, when the engine can deliver it in `s`. -/
def step (ev : Event) (s : State) : Option State :=
  match ev with
  | .frame inp => some (update inp s).state
  | .physics y velX velY =>
    if s.physicsRunning then
      some { s with playerY := y, playerVelX := velX, playerVelY := velY }
    else none
  | .bombHit bomb down =>
    if s.physicsRunning && s.bombs.getD bomb false then some (bombCollide bomb down s)
    else none
  | .starCollect star rolls =>
    if s.physicsRunning && s.stars.getD star false then some (starOverlap star rolls s)
    else none
  | .powerupCollect key =>
    if s.physicsRunning && s.powerups.visible key then some (powerupOverlap key s)
    else none
  | .keycombo codes =>
    if s.keyboardListening then some (keycombomatch codes s) else none
  | .timer shift =>
    match earliest s.timers with
    | some t =>
      if t.due ≤ s.now then some (fire t.cb shift { s with timers := s.timers.erase t })
      else none
    | none => none
  | .elapse ms =>
    if s.timers.all (fun t => decide (s.now + ms ≤ t.due)) then
      some { s with now := s.now + ms }
    else none

/-- A sequence of events, from left to right. -/
def run : List Event → State → Option State
  | [], s => some s
  | ev :: evs, s =>
    match step ev s with
    | some s' => run evs s'
    | none => none

/-- The states the game can be in when local storage held `stored` at startup. -/
def Reachable (stored : Option Nat) (s : State) : Prop :=
  ∃ evs, run evs (init stored) = some s

/-! ## Invariants -/

/-- What holds in every state of a game. -/
structure Inv (s : State) : Prop where
  groundPound : s.invincibleGroundPound = false
  alive : s.physicsRunning = true → 1 ≤ s.lives
  overBombs : s.gameIsOver = true → true ∉ s.bombs
  overStars : s.gameIsOver = true → true ∉ s.stars

/-- What holds from the activation of daredevil mode on. -/
structure Daredevil (s : State) : Prop where
  mode : s.daredevil = true
  groundPound : s.invincibleGroundPound = false
  oneLife : s.lives ≤ 1
  noPowerup : s.powerups = PowerupRefs.none

/-- What no event changes: the high score read at startup, a level of at least 1, the
twelve stars, and `bombGroundPounded` once it is set (`pounded` says that it is). -/
structure Steady (high : Nat) (pounded : Bool) (s : State) : Prop where
  highScore : s.highScore = high
  level : 1 ≤ s.level
  stars : s.stars.length = 12
  pounded : pounded = true → s.bombGroundPounded = true

/-! ## The words of the specification -/

/-- The position of a power-up in the loop over the power-ups, which is the number of
its roll. -/
def rollIndex : PowerupKey → Nat
  | .ultimate => 0
  | .armor => 1
  | .invincibility => 2
  | .oneUp => 3
  | .stop => 4

/-- The power-up that a level above 5 spawns, in the words of the specification: the first
one, in the order of the loop, that is not visible and whose own roll is below its rate. -/
def firstToSpawn (rolls : Nat → Nat) (refs : PowerupRefs) : Option PowerupKey :=
  powerupKeys.find? (fun key => !refs.visible key && decide (rolls (rollIndex key) < spawnRate key))

/-- The character codes of the upper-cased string, in the words of the specification. -/
def upperCodes (str : String) : List Nat :=
  str.data.map (fun c => c.toUpper.toNat)

/-! ## Lists of characters with commas -/

/-- The characters of pieces, each behind a comma. -/
def sepTail : List (List Char) → List Char
  | [] => []
  | x :: xs => ',' :: (x ++ sepTail xs)

/-- The characters of pieces with a comma between two of them. -/
def sepJoin : List (List Char) → List Char
  | [] => []
  | x :: xs => x ++ sepTail xs

/-- The characters of pieces, each before a comma. -/
def sepEach : List (List Char) → List Char
  | [] => []
  | x :: xs => x ++ ',' :: sepEach xs

/-- The decimal notations of the key codes of a string, as lists of characters. -/
def codePieces (str : String) : List (List Char) :=
  str.data.map (fun c => (toString c.toUpper.toNat).data)

/-! ## The invincibility after a hit: its callbacks and its phases -/

/-- Whether the event runs the delayed callback `owns.head`: a callback runs, and the one
that is due first is that callback. -/
def firesHead (owns : List Timer) (ev : Event) (s : State) : Bool :=
  match ev, earliest s.timers, owns with
  | .timer _, some t, own :: _ => decide (t = own)
  | _, _, _ => false

/-- No other event changes `invincible`: along the run every event, except the runs of the
callbacks `owns` of the hit in their order, leaves `invincible` as it found it. -/
def undisturbed : List Timer → List Event → State → Bool
  | _, [], _ => true
  | owns, ev :: evs, s =>
    match step ev s with
    | none => true
    | some s' =>
      if firesHead owns ev s then undisturbed owns.tail evs s'
      else (s'.invincible == s.invincible) && undisturbed owns evs s'

/-- The callbacks among `owns` that have not run by the end of the run. -/
def pendingOwn : List Timer → List Event → State → List Timer
  | owns, [], _ => owns
  | owns, ev :: evs, s =>
    match step ev s with
    | none => owns
    | some s' =>
      if firesHead owns ev s then pendingOwn owns.tail evs s'
      else pendingOwn owns evs s'

/-- The two phases after a hit at time `t` that is not a first ground-pound hit: its callback
is pending and the player is invincible, or the callback has run and the invincibility is
over. `owns` lists the callbacks of the hit that have not run. -/
def HitPhase (stored : Option Nat) (t : Nat) (owns : List Timer) (x : State) : Prop :=
  Reachable stored x ∧
    ((owns = [⟨t + TIME.MERCY, .mercy false⟩] ∧ x.invincible = true ∧
        x.now ≤ t + TIME.MERCY ∧ (⟨t + TIME.MERCY, .mercy false⟩ : Timer) ∈ x.timers) ∨
      (owns = [] ∧ x.invincible = false ∧ t + TIME.MERCY ≤ x.now))

/-- The three phases after a first ground-pound hit at time `t`: before the first callback,
between the two callbacks, and after the second. `owns` lists the callbacks of the hit
that have not run. -/
def PoundPhase (stored : Option Nat) (t : Nat) (owns : List Timer) (x : State) : Prop :=
  Reachable stored x ∧
    ((owns = [⟨t + TIME.MERCY / 2, .mercy true⟩, ⟨t + TIME.MERCY / 2 + TIME.MERCY, .mercyEnd⟩] ∧
        x.invincible = true ∧ x.now ≤ t + TIME.MERCY / 2 ∧
        (⟨t + TIME.MERCY / 2, .mercy true⟩ : Timer) ∈ x.timers) ∨
      (owns = [⟨t + TIME.MERCY / 2 + TIME.MERCY, .mercyEnd⟩] ∧
        x.invincible = true ∧ x.bombGroundPounded = true ∧ t + TIME.MERCY / 2 ≤ x.now ∧
        x.now ≤ t + TIME.MERCY / 2 + TIME.MERCY ∧
        (⟨t + TIME.MERCY / 2 + TIME.MERCY, .mercyEnd⟩ : Timer) ∈ x.timers) ∨
      (owns = [] ∧ x.invincible = false ∧ x.bombGroundPounded = true ∧
        t + TIME.MERCY / 2 + TIME.MERCY ≤ x.now))

/-! ## Sample play-throughs -/

/-- The player collects the twelve stars of a level from left to right. -/
def collectAll (rolls : Nat → Nat) : List Event :=
  (List.range 12).map (fun i => Event.starCollect i rolls)

/-- The player completes `n` levels in a row, every roll being `rolls`. -/
def playLevels (n : Nat) (rolls : Nat → Nat) : List Event :=
  (List.replicate n (collectAll rolls)).flatten

/-- The key codes of `"daredevil"` followed by Enter. -/
def daredevilCodes : List Nat := [68, 65, 82, 69, 68, 69, 86, 73, 76, 13]

/-- The key codes of `"kill"` followed by Enter. -/
def killCodes : List Nat := [75, 73, 76, 76, 13]

/-- The key codes of the Konami code. -/
def konamiCodes : List Nat := [38, 38, 40, 40, 37, 39, 37, 39, 66, 65]

/-- A frame in which no key is held and the player stands on a platform. -/
def noKeys : Input := ⟨false, false, false, false, false, true⟩

/-- The state at the end of a play-through that starts with empty local storage. -/
def stateAfter (evs : List Event) : State :=
  (run evs (init none)).getD (init none)

/-- Five levels with every roll 0 (the ultimate potion spawns at level 6), a bomb hit at
time 0, the ultimate potion at time 1000, and the callback of the hit at time 3000. -/
def staleMercyTrace : List Event :=
  playLevels 5 (fun _ => 0) ++
    [.bombHit 0 false, .elapse 1000, .powerupCollect .ultimate, .elapse 2000, .timer false]

/-- Five levels with every roll 0, the ultimate potion, and the cheat `"kill"`. -/
def killedTrace : List Event :=
  playLevels 5 (fun _ => 0) ++ [.powerupCollect .ultimate, .keycombo killCodes]

/-- Four levels with every roll 0 (the armor potion spawns at level 5), then the armor
potion is collected. -/
def armorTrace : List Event :=
  playLevels 4 (fun _ => 0) ++ [.powerupCollect .armor]

/-- The armor absorbs a bomb. -/
def armorHitTrace : List Event :=
  armorTrace ++ [.bombHit 0 true]

/-- The armor message ends at time 1500 and the invincibility given by the armor at 3000. -/
def armorSpentTrace : List Event :=
  armorHitTrace ++ [.elapse 1500, .timer false, .elapse 1500, .timer false]

/-- One level with no power-up: the first bomb is in the game. -/
def levelTwoTrace : List Event :=
  collectAll (fun _ => 99)

/-- A bomb hits the unprotected player at time 0. -/
def mercyTrace : List Event :=
  levelTwoTrace ++ [.bombHit 0 false]

/-- Daredevil mode is activated at the start and the first level is completed. -/
def daredevilTrace : List Event :=
  .keycombo daredevilCodes :: collectAll (fun _ => 0)

/-- A bomb hits the daredevil. -/
def daredevilHitTrace : List Event :=
  daredevilTrace ++ [.bombHit 0 false]

/-- Five levels with every roll 0, then the ultimate potion is collected. -/
def ultimateTrace : List Event :=
  playLevels 5 (fun _ => 0) ++ [.powerupCollect .ultimate]

/-- After the hit at time 0: a ground-pound collision at time 1000, then the callback of
the hit at time 3000. -/
def poundTrace : List Event :=
  [.elapse 1000, .bombHit 0 true, .elapse 2000, .timer false]

/-- Four levels without a power-up roll below its rate, a fifth that spawns the
invincibility potion, a sixth that spawns the ultimate potion; the invincibility potion is
collected at time 0 and the ultimate potion at time 5000. -/
def twoPotionsTrace : List Event :=
  playLevels 4 (fun _ => 99) ++ collectAll (fun k => if k = 2 then 0 else 99) ++
    collectAll (fun _ => 0) ++
    [.powerupCollect .invincibility, .elapse 5000, .powerupCollect .ultimate]

/-- The callback of the invincibility potion runs at time 10000. -/
def stalePotionTrace : List Event :=
  twoPotionsTrace ++ [.elapse 5000, .timer false]

/-- Daredevil mode is activated at the start. -/
def activatedTrace : List Event :=
  [.keycombo daredevilCodes]

/-- Five levels with every roll 0 leave three power-ups on screen; then the daredevil cheat. -/
def despawnTrace : List Event :=
  playLevels 5 (fun _ => 0) ++ [.keycombo daredevilCodes]

/-- The first level is completed up to the last star. -/
def elevenStarsTrace : List Event :=
  (List.range 11).map (fun i => Event.starCollect i (fun _ => 99))

/-- Five levels with every roll 99: nothing but the extra-life potion of level 4 spawns. -/
def noLuckTrace : List Event :=
  playLevels 4 (fun _ => 99) ++ elevenStarsTrace

/-- The state after the first level when local storage held `stored` at startup. -/
def levelTwoWith (stored : Option Nat) : State :=
  (run levelTwoTrace (init stored)).getD (init stored)

/-- A frame in which the up key is held and the player stands on a platform. -/
def upKey : Input := ⟨true, false, false, false, false, true⟩

/-- The player stands on a platform when the Konami code is entered: `gameIsOver` is set,
the keyboard is still listened to and the physics still run. -/
def konamiStandingTrace : List Event :=
  [.frame noKeys, .keycombo konamiCodes]

/-- The player stands on a platform, the up key is pressed, and the engine moves the player
up before the next frame. -/
def jumpTrace : List Event :=
  [.frame noKeys, .frame upKey, .physics 375 0 (-325)]

/-- After the first level, a ground-pound hit at time 0. -/
def ouchHitTrace : List Event :=
  levelTwoTrace ++ [.bombHit 0 true]

/-- The reverse of the Konami code: five more lives. -/
def reverseKonamiCodes : List Nat :=
  [40, 40, 38, 38, 39, 37, 39, 37, 65, 66]

/-- What happens after the ground-pound hit of `ouchHitTrace` up to time 4500: a frame,
a second collision with the bomb, a cheat code, and the callbacks that come due. -/
def ouchBusy : List Event :=
  [.frame noKeys, .bombHit 0 true, .keycombo reverseKonamiCodes, .elapse 1500, .timer false,
    .bombHit 0 false, .elapse 500, .timer false, .elapse 2500]

/-! ## What each handler leaves alone -/

theorem run_append (a b : List Event) (s : State) :
    run (a ++ b) s = (run a s).bind (run b) := by
  induction a generalizing s with
  | nil => simp [run]
  | cons ev evs ih =>
    simp only [List.cons_append, run]
    cases step ev s with
    | none => simp
    | some s' => simpa using ih s'

theorem reachable_init (stored : Option Nat) : Reachable stored (init stored) :=
  ⟨[], rfl⟩

theorem reachable_run {stored : Option Nat} {s s' : State} (evs : List Event)
    (hs : Reachable stored s) (h : run evs s = some s') : Reachable stored s' := by
  obtain ⟨pre, hpre⟩ := hs
  exact ⟨pre ++ evs, by simp [run_append, hpre, h]⟩

theorem reachable_step {stored : Option Nat} {s s' : State} (ev : Event)
    (hs : Reachable stored s) (h : step ev s = some s') : Reachable stored s' :=
  reachable_run [ev] hs (by simp [run, h])

theorem despawnEverything_eq (s : State) :
    despawnEverything s =
      { s with bombs := s.bombs.map (fun _ => false), stars := s.stars.map (fun _ => false),
               powerups := PowerupRefs.none } := rfl

theorem gameOver_eq (s : State) :
    gameOver s =
      { s with gameIsOver := true, invincible := false, lives := 0,
               bombs := s.bombs.map (fun _ => false), stars := s.stars.map (fun _ => false),
               powerups := PowerupRefs.none, physicsRunning := false, keyboardListening := false,
               storage := if s.score > s.highScore then some s.score else s.storage } := by
  unfold gameOver
  simp only [despawnEverything_eq, debug]
  split_ifs <;> simp_all

theorem movePlayer_frame (inp : Input) (s : State) :
    ∃ velX velY timers, movePlayer inp s =
      { s with playerVelX := velX, playerVelY := velY, timers := timers } := by
  unfold movePlayer
  split_ifs <;> exact ⟨_, _, _, rfl⟩

theorem jumpPlayer_frame (inp : Input) (s : State) :
    ∃ velY jump up, jumpPlayer inp s =
      { s with playerVelY := velY, jumpEnabled := jump, upKeyDown := up } := by
  unfold jumpPlayer
  split_ifs <;> exact ⟨_, _, _, rfl⟩

theorem unstick_frame (s : State) : ∃ y, unstick s = { s with playerY := y } := by
  unfold unstick
  split_ifs <;> exact ⟨_, rfl⟩

/-- A frame touches the player's motion, the two jump flags and the pending callbacks only. -/
theorem update_frame (inp : Input) (s : State) :
    ∃ velX velY up jump y timers, (update inp s).state =
      { s with playerVelX := velX, playerVelY := velY, upKeyDown := up, jumpEnabled := jump,
               playerY := y, timers := timers } := by
  unfold update
  split_ifs
  · exact ⟨_, _, _, _, _, _, rfl⟩
  · obtain ⟨vx, vy, ts, hm⟩ := movePlayer_frame inp s
    obtain ⟨vy2, j, u, hj⟩ := jumpPlayer_frame inp (movePlayer inp s)
    obtain ⟨y, hu⟩ :=
      unstick_frame { jumpPlayer inp (movePlayer inp s) with jumpEnabled := inp.touchingDown }
    simp only [hu]
    simp only [hj]
    simp only [hm]
    exact ⟨_, _, _, _, _, _, rfl⟩

/-- The error thrown by a frame depends on three flags at its start. -/
theorem update_thrown (inp : Input) (s : State) :
    (update inp s).thrown =
      if s.gameIsOver then none else assert (!s.canDestroy || s.invincible) assertMessage := by
  unfold update
  split_ifs
  · rfl
  · obtain ⟨vx, vy, ts, hm⟩ := movePlayer_frame inp s
    obtain ⟨vy2, j, u, hj⟩ := jumpPlayer_frame inp (movePlayer inp s)
    obtain ⟨y, hu⟩ :=
      unstick_frame { jumpPlayer inp (movePlayer inp s) with jumpEnabled := inp.touchingDown }
    simp only [hu]
    simp only [hj]
    simp only [hm]

theorem spawnPowerup_frame (rolls : Nat → Nat) (s : State) :
    spawnPowerup rolls s = { s with powerups := (spawnPowerup rolls s).powerups } := by
  unfold spawnPowerup
  dsimp only
  split_ifs <;> rfl

theorem bonusLife_eq (s : State) : bonusLife s = s := by
  simp [bonusLife, BONUS_LIFE_LEVELS]

theorem levelUp_frame (rolls : Nat → Nat) (s : State) :
    ∃ level stars bombs powerups, levelUp rolls s =
      { s with level := level, stars := stars, bombs := bombs, powerups := powerups } := by
  unfold levelUp
  dsimp only [createBomb]
  split_ifs <;>
    first
    | exact ⟨_, _, _, _, rfl⟩
    | (rw [bonusLife_eq, spawnPowerup_frame]; exact ⟨_, _, _, _, rfl⟩)

/-- Collecting a star touches the score, the level and the three groups of bodies only. -/
theorem starOverlap_frame (star : Nat) (rolls : Nat → Nat) (s : State) :
    ∃ level stars bombs powerups, starOverlap star rolls s =
      { s with score := s.score + 10, level := level, stars := stars, bombs := bombs,
               powerups := powerups } := by
  unfold starOverlap
  dsimp only
  split_ifs
  · obtain ⟨l, st, b, p, h⟩ := levelUp_frame rolls
      { s with stars := s.stars.set star false, score := s.score + 10 }
    rw [h]
    exact ⟨_, _, _, _, rfl⟩
  · exact ⟨_, _, _, _, rfl⟩

/-! ## The four ways through the bomb collision -/

theorem bombCollide_invincible (bomb : Nat) (down : Bool) (s : State)
    (hg : s.invincibleGroundPound = false) (hi : s.invincible = true) :
    bombCollide bomb down s =
      if s.canDestroy then { s with bombs := s.bombs.set bomb false, score := s.score + 20 }
      else s := by
  cases hc : s.canDestroy <;> cases s <;> simp only at hg hi hc <;> subst hg hi hc <;> rfl

theorem bombCollide_armor (bomb : Nat) (down : Bool) (s : State)
    (hg : s.invincibleGroundPound = false) (hi : s.invincible = false) (ha : s.hasArmor = true) :
    bombCollide bomb down s =
      wait TIME.MERCY .armorMercy
        { s with canDestroy := false, hasArmor := false, invincible := true } := by
  cases hc : s.canDestroy <;> cases s <;> simp only at hg hi ha hc <;> subst hg hi ha hc <;> rfl

theorem bombCollide_hit (bomb : Nat) (down : Bool) (s : State)
    (hg : s.invincibleGroundPound = false) (hi : s.invincible = false) (ha : s.hasArmor = false)
    (hl : 1 ≤ s.lives - 1) :
    bombCollide bomb down s =
      wait (TIME.MERCY /
          (if down && !s.jumpEnabled && !s.invinciblePowerup && !s.bombGroundPounded then 2 else 1))
        (.mercy (down && !s.jumpEnabled && !s.invinciblePowerup && !s.bombGroundPounded))
        { s with canDestroy := false, lives := s.lives - 1, playerY := canvas.height - 80,
                 invincible := true } := by
  cases hc : s.canDestroy <;> cases s <;> simp only at hg hi ha hl hc <;> subst hg hi ha hc <;>
    simp [bombCollide, hl, wait]

theorem bombCollide_fatal (bomb : Nat) (down : Bool) (s : State)
    (hg : s.invincibleGroundPound = false) (hi : s.invincible = false) (ha : s.hasArmor = false)
    (hl : ¬ 1 ≤ s.lives - 1) :
    bombCollide bomb down s = gameOver { s with canDestroy := false, lives := s.lives - 1 } := by
  cases hc : s.canDestroy <;> cases s <;> simp only at hg hi ha hl hc <;> subst hg hi ha hc <;>
    simp [bombCollide, hl, gameOver_eq]

/-! ## Facts about the groups of bodies -/

theorem not_mem_map_false (l : List Bool) : true ∉ l.map (fun _ => false) := by
  simp

theorem not_mem_set_false {l : List Bool} (i : Nat) (h : true ∉ l) : true ∉ l.set i false := by
  intro hm
  rcases List.mem_or_eq_of_mem_set hm with h1 | h1
  · exact h h1
  · cases h1

theorem mem_of_getD {l : List Bool} {i : Nat} (h : l.getD i false = true) : true ∈ l := by
  induction l generalizing i with
  | nil => simp at h
  | cons x xs ih =>
    cases i with
    | zero =>
      simp at h
      simp [h]
    | succ n =>
      simp at h
      exact List.mem_cons_of_mem _ (ih (by simpa using h))

/-! ## The invariant of the game -/

theorem inv_init (stored : Option Nat) : Inv (init stored) := by
  constructor <;> simp [init, STARTING_LIVES]

theorem inv_gameOver (s : State) (hg : s.invincibleGroundPound = false) : Inv (gameOver s) := by
  rw [gameOver_eq]
  constructor <;> simp [hg]

theorem inv_update {s : State} (inp : Input) (h : Inv s) : Inv (update inp s).state := by
  obtain ⟨vx, vy, u, j, y, ts, he⟩ := update_frame inp s
  rw [he]
  exact ⟨h.groundPound, h.alive, h.overBombs, h.overStars⟩

theorem inv_bombCollide {s : State} (bomb : Nat) (down : Bool) (h : Inv s) :
    Inv (bombCollide bomb down s) := by
  have hg := h.groundPound
  cases hi : s.invincible
  · cases ha : s.hasArmor
    · by_cases hl : 1 ≤ s.lives - 1
      · rw [bombCollide_hit bomb down s hg hi ha hl]
        exact ⟨hg, fun _ => hl, h.overBombs, h.overStars⟩
      · rw [bombCollide_fatal bomb down s hg hi ha hl]
        exact inv_gameOver _ hg
    · rw [bombCollide_armor bomb down s hg hi ha]
      exact ⟨hg, h.alive, h.overBombs, h.overStars⟩
  · rw [bombCollide_invincible bomb down s hg hi]
    split_ifs
    · exact ⟨hg, h.alive, fun ho => not_mem_set_false bomb (h.overBombs ho), h.overStars⟩
    · exact h

theorem inv_starOverlap {s : State} (star : Nat) (rolls : Nat → Nat) (h : Inv s)
    (ho : s.gameIsOver = false) : Inv (starOverlap star rolls s) := by
  obtain ⟨l, st, b, p, he⟩ := starOverlap_frame star rolls s
  rw [he]
  constructor <;> simp [ho, h.groundPound]
  exact h.alive

theorem inv_powerupOverlap {s : State} (key : PowerupKey) (h : Inv s) :
    Inv (powerupOverlap key s) := by
  have hg := h.groundPound
  have ha := h.alive
  cases key <;> simp only [powerupOverlap, onCollect, wait]
  · exact ⟨hg, fun hp => by have := ha hp; simp only; omega, h.overBombs, h.overStars⟩
  · exact ⟨hg, ha, h.overBombs, h.overStars⟩
  · split_ifs
    · exact ⟨hg, ha, h.overBombs, h.overStars⟩
    · exact ⟨hg, ha, h.overBombs, h.overStars⟩
  · exact ⟨hg, fun hp => by have := ha hp; simp only; omega, h.overBombs, h.overStars⟩
  · exact ⟨hg, ha, h.overBombs, h.overStars⟩

theorem inv_runCheat {s : State} (cheat : Cheat) (h : Inv s) : Inv (runCheat cheat s) := by
  have hg := h.groundPound
  have ha := h.alive
  cases cheat <;> simp only [runCheat, wait, despawnEverything_eq, debug, createBomb]
  · exact ⟨hg, ha, fun _ => not_mem_map_false _, fun _ => not_mem_map_false _⟩
  · exact ⟨hg, fun hp => by have := ha hp; simp only [STARTING_LIVES]; omega, h.overBombs,
      h.overStars⟩
  · exact h
  · exact h
  · exact ⟨rfl, fun _ => le_refl _, h.overBombs, h.overStars⟩
  · exact inv_gameOver s hg

/-- The key-combo handler either does nothing or runs one cheat. -/
theorem keycombomatch_cases (codes : List Nat) (s : State) :
    keycombomatch codes s = s ∨ ∃ cheat, keycombomatch codes s = runCheat cheat s := by
  unfold keycombomatch
  split_ifs
  · exact Or.inl rfl
  · dsimp only
    cases codesMap.lookup (joinCodes codes) with
    | some c => exact Or.inr ⟨c, rfl⟩
    | none =>
      cases repeatingCodesMap.lookup (joinCodes codes) with
      | some c => exact Or.inr ⟨c, rfl⟩
      | none => exact Or.inl rfl

theorem inv_keycombomatch {s : State} (codes : List Nat) (h : Inv s) :
    Inv (keycombomatch codes s) := by
  rcases keycombomatch_cases codes s with he | ⟨cheat, he⟩
  · rw [he]
    exact h
  · rw [he]
    exact inv_runCheat cheat h

theorem inv_fire {s : State} (cb : Callback) (shift : Bool) (h : Inv s) :
    Inv (fire cb shift s) := by
  have hg := h.groundPound
  cases cb <;> simp only [fire, wait] <;>
    first
    | exact h
    | exact ⟨hg, h.alive, h.overBombs, h.overStars⟩
    | (split_ifs <;>
        first
        | exact h
        | exact ⟨hg, h.alive, h.overBombs, h.overStars⟩
        | exact inv_gameOver s hg)

theorem inv_step {s s' : State} (ev : Event) (h : Inv s) (hs : step ev s = some s') :
    Inv s' := by
  cases ev with
  | frame inp =>
    simp only [step, Option.some.injEq] at hs
    subst hs
    exact inv_update inp h
  | physics y velX velY =>
    simp only [step] at hs
    split_ifs at hs
    simp only [Option.some.injEq] at hs
    subst hs
    exact ⟨h.groundPound, h.alive, h.overBombs, h.overStars⟩
  | bombHit bomb down =>
    simp only [step] at hs
    split_ifs at hs
    simp only [Option.some.injEq] at hs
    subst hs
    exact inv_bombCollide bomb down h
  | starCollect star rolls =>
    simp only [step] at hs
    split_ifs at hs with hc
    simp only [Option.some.injEq] at hs
    subst hs
    simp only [Bool.and_eq_true] at hc
    refine inv_starOverlap star rolls h ?_
    cases ho : s.gameIsOver
    · rfl
    · exact absurd (mem_of_getD hc.2) (h.overStars ho)
  | powerupCollect key =>
    simp only [step] at hs
    split_ifs at hs
    simp only [Option.some.injEq] at hs
    subst hs
    exact inv_powerupOverlap key h
  | keycombo codes =>
    simp only [step] at hs
    split_ifs at hs
    simp only [Option.some.injEq] at hs
    subst hs
    exact inv_keycombomatch codes h
  | timer shift =>
    simp only [step] at hs
    cases he : earliest s.timers with
    | none => simp [he] at hs
    | some t =>
      simp only [he] at hs
      split_ifs at hs
      simp only [Option.some.injEq] at hs
      subst hs
      exact inv_fire t.cb shift ⟨h.groundPound, h.alive, h.overBombs, h.overStars⟩
  | elapse ms =>
    simp only [step] at hs
    split_ifs at hs
    simp only [Option.some.injEq] at hs
    subst hs
    exact ⟨h.groundPound, h.alive, h.overBombs, h.overStars⟩

theorem inv_run {s s' : State} (evs : List Event) (h : Inv s) (hs : run evs s = some s') :
    Inv s' := by
  induction evs generalizing s with
  | nil =>
    simp only [run, Option.some.injEq] at hs
    subst hs
    exact h
  | cons ev evs ih =>
    simp only [run] at hs
    cases he : step ev s with
    | none => simp [he] at hs
    | some s1 =>
      simp only [he] at hs
      exact ih (inv_step ev h he) hs

theorem reachable_inv {stored : Option Nat} {s : State} (h : Reachable stored s) : Inv s := by
  obtain ⟨evs, he⟩ := h
  exact inv_run evs (inv_init stored) he

/-! ## Daredevil mode -/

theorem visible_none (key : PowerupKey) : PowerupRefs.none.visible key = false := by
  cases key <;> rfl

theorem daredevil_gameOver {s : State} (h : Daredevil s) : Daredevil (gameOver s) := by
  rw [gameOver_eq]
  exact ⟨h.mode, h.groundPound, by simp, rfl⟩

theorem daredevil_bombCollide {s : State} (bomb : Nat) (down : Bool) (h : Daredevil s) :
    Daredevil (bombCollide bomb down s) := by
  have hg := h.groundPound
  have hl := h.oneLife
  cases hi : s.invincible
  · cases ha : s.hasArmor
    · by_cases hl1 : 1 ≤ s.lives - 1
      · rw [bombCollide_hit bomb down s hg hi ha hl1]
        exact ⟨h.mode, hg, by simp only [wait]; omega, h.noPowerup⟩
      · rw [bombCollide_fatal bomb down s hg hi ha hl1, gameOver_eq]
        exact ⟨h.mode, hg, by simp, rfl⟩
    · rw [bombCollide_armor bomb down s hg hi ha]
      exact ⟨h.mode, hg, hl, h.noPowerup⟩
  · rw [bombCollide_invincible bomb down s hg hi]
    split_ifs
    · exact ⟨h.mode, hg, hl, h.noPowerup⟩
    · exact h

/-- In daredevil mode a completed level spawns nothing. -/
theorem levelUp_daredevil (rolls : Nat → Nat) (s : State) (hd : s.daredevil = true) :
    (levelUp rolls s).powerups = s.powerups ∧ (levelUp rolls s).lives = s.lives ∧
      (levelUp rolls s).daredevil = true ∧
      (levelUp rolls s).invincibleGroundPound = s.invincibleGroundPound := by
  unfold levelUp
  simp [createBomb, hd]

theorem starOverlap_daredevil (star : Nat) (rolls : Nat → Nat) (s : State)
    (hd : s.daredevil = true) :
    (starOverlap star rolls s).powerups = s.powerups ∧ (starOverlap star rolls s).lives = s.lives ∧
      (starOverlap star rolls s).daredevil = true ∧
      (starOverlap star rolls s).invincibleGroundPound = s.invincibleGroundPound := by
  unfold starOverlap
  dsimp only
  split_ifs
  · exact levelUp_daredevil rolls _ hd
  · exact ⟨rfl, rfl, hd, rfl⟩

theorem daredevil_starOverlap {s : State} (star : Nat) (rolls : Nat → Nat) (h : Daredevil s) :
    Daredevil (starOverlap star rolls s) := by
  obtain ⟨h1, h2, h3, h4⟩ := starOverlap_daredevil star rolls s h.mode
  exact ⟨h3, h4 ▸ h.groundPound, h2 ▸ h.oneLife, h1 ▸ h.noPowerup⟩

theorem daredevil_fire {s : State} (cb : Callback) (shift : Bool) (h : Daredevil s) :
    Daredevil (fire cb shift s) := by
  cases cb <;> simp only [fire, wait] <;>
    first
    | exact h
    | exact ⟨h.mode, h.groundPound, h.oneLife, h.noPowerup⟩
    | (split_ifs <;>
        first
        | exact h
        | exact ⟨h.mode, h.groundPound, h.oneLife, h.noPowerup⟩
        | exact daredevil_gameOver h)

theorem daredevil_step {s s' : State} (ev : Event) (h : Daredevil s)
    (hs : step ev s = some s') : Daredevil s' := by
  cases ev with
  | frame inp =>
    simp only [step, Option.some.injEq] at hs
    subst hs
    obtain ⟨vx, vy, u, j, y, ts, he⟩ := update_frame inp s
    rw [he]
    exact ⟨h.mode, h.groundPound, h.oneLife, h.noPowerup⟩
  | physics y velX velY =>
    simp only [step] at hs
    split_ifs at hs
    simp only [Option.some.injEq] at hs
    subst hs
    exact ⟨h.mode, h.groundPound, h.oneLife, h.noPowerup⟩
  | bombHit bomb down =>
    simp only [step] at hs
    split_ifs at hs
    simp only [Option.some.injEq] at hs
    subst hs
    exact daredevil_bombCollide bomb down h
  | starCollect star rolls =>
    simp only [step] at hs
    split_ifs at hs
    simp only [Option.some.injEq] at hs
    subst hs
    exact daredevil_starOverlap star rolls h
  | powerupCollect key =>
    simp only [step] at hs
    split_ifs at hs with hc
    simp [h.noPowerup, visible_none] at hc
  | keycombo codes =>
    simp only [step] at hs
    split_ifs at hs
    simp only [Option.some.injEq] at hs
    subst hs
    simp only [keycombomatch, h.mode, if_true]
    exact h
  | timer shift =>
    simp only [step] at hs
    cases he : earliest s.timers with
    | none => simp [he] at hs
    | some t =>
      simp only [he] at hs
      split_ifs at hs
      simp only [Option.some.injEq] at hs
      subst hs
      exact daredevil_fire t.cb shift ⟨h.mode, h.groundPound, h.oneLife, h.noPowerup⟩
  | elapse ms =>
    simp only [step] at hs
    split_ifs at hs
    simp only [Option.some.injEq] at hs
    subst hs
    exact ⟨h.mode, h.groundPound, h.oneLife, h.noPowerup⟩

theorem daredevil_run {s s' : State} (evs : List Event) (h : Daredevil s)
    (hs : run evs s = some s') : Daredevil s' := by
  induction evs generalizing s with
  | nil =>
    simp only [run, Option.some.injEq] at hs
    subst hs
    exact h
  | cons ev evs ih =>
    simp only [run] at hs
    cases he : step ev s with
    | none => simp [he] at hs
    | some s1 =>
      simp only [he] at hs
      exact ih (daredevil_step ev h he) hs

/-- The daredevil cheat is registered under the key codes of `"daredevil"` and Enter. -/
theorem joinCodes_daredevilCodes : joinCodes daredevilCodes = keyCodesPlusEnter "daredevil" := by
  decide

/-- The daredevil cheat is stored under the codes of `"daredevil"` and Enter. -/
theorem keycombomatch_daredevil (s : State) (hd : s.daredevil = false) :
    keycombomatch daredevilCodes s = runCheat .daredevil s := by
  have h : codesMap.lookup (joinCodes daredevilCodes) = some Cheat.daredevil := by decide
  simp [keycombomatch, hd, h]

theorem daredevil_activate (s : State) : Daredevil (runCheat .daredevil s) :=
  ⟨rfl, rfl, le_refl _, rfl⟩

/-! ## Armor -/

theorem runCheat_hasArmor (cheat : Cheat) (s : State) :
    (runCheat cheat s).hasArmor = s.hasArmor := by
  cases cheat <;> simp [runCheat, wait, gameOver_eq, despawnEverything_eq, despawnPowerUps, debug]

theorem fire_hasArmor (cb : Callback) (shift : Bool) (s : State) :
    (fire cb shift s).hasArmor = s.hasArmor := by
  cases cb <;> simp only [fire, wait, gameOver_eq] <;> first | rfl | (split_ifs <;> rfl)

/-- Armor is gained by collecting the armor potion and in no other way. -/
theorem step_hasArmor {s s' : State} (ev : Event) (h : Inv s) (hs : step ev s = some s')
    (hne : ev ≠ .powerupCollect .armor) (ha : s.hasArmor = false) : s'.hasArmor = false := by
  have hg := h.groundPound
  cases ev with
  | frame inp =>
    simp only [step, Option.some.injEq] at hs
    subst hs
    obtain ⟨vx, vy, u, j, y, ts, he⟩ := update_frame inp s
    rw [he]
    exact ha
  | physics y velX velY =>
    simp only [step] at hs
    split_ifs at hs
    simp only [Option.some.injEq] at hs
    subst hs
    exact ha
  | bombHit bomb down =>
    simp only [step] at hs
    split_ifs at hs
    simp only [Option.some.injEq] at hs
    subst hs
    cases hi : s.invincible
    · by_cases hl : 1 ≤ s.lives - 1
      · rw [bombCollide_hit bomb down s hg hi ha hl]
        exact ha
      · rw [bombCollide_fatal bomb down s hg hi ha hl, gameOver_eq]
        exact ha
    · rw [bombCollide_invincible bomb down s hg hi]
      split_ifs <;> exact ha
  | starCollect star rolls =>
    simp only [step] at hs
    split_ifs at hs
    simp only [Option.some.injEq] at hs
    subst hs
    obtain ⟨l, st, b, p, he⟩ := starOverlap_frame star rolls s
    rw [he]
    exact ha
  | powerupCollect key =>
    simp only [step] at hs
    split_ifs at hs
    simp only [Option.some.injEq] at hs
    subst hs
    cases key with
    | armor => exact absurd rfl hne
    | invincibility =>
      simp only [powerupOverlap, onCollect, wait]
      split_ifs <;> exact ha
    | ultimate => exact ha
    | oneUp => exact ha
    | stop => exact ha
  | keycombo codes =>
    simp only [step] at hs
    split_ifs at hs
    simp only [Option.some.injEq] at hs
    subst hs
    rcases keycombomatch_cases codes s with he | ⟨cheat, he⟩
    · rw [he]
      exact ha
    · rw [he, runCheat_hasArmor]
      exact ha
  | timer shift =>
    simp only [step] at hs
    cases he : earliest s.timers with
    | none => simp [he] at hs
    | some t =>
      simp only [he] at hs
      split_ifs at hs
      simp only [Option.some.injEq] at hs
      subst hs
      rw [fire_hasArmor]
      exact ha
  | elapse ms =>
    simp only [step] at hs
    split_ifs at hs
    simp only [Option.some.injEq] at hs
    subst hs
    exact ha

theorem run_hasArmor {s s' : State} (evs : List Event) (h : Inv s) (hs : run evs s = some s')
    (hne : ∀ ev ∈ evs, ev ≠ .powerupCollect .armor) (ha : s.hasArmor = false) :
    s'.hasArmor = false := by
  induction evs generalizing s with
  | nil =>
    simp only [run, Option.some.injEq] at hs
    subst hs
    exact ha
  | cons ev evs ih =>
    simp only [run] at hs
    cases he : step ev s with
    | none => simp [he] at hs
    | some s1 =>
      simp only [he] at hs
      exact ih (inv_step ev h he) hs (fun e hm => hne e (List.mem_cons_of_mem _ hm))
        (step_hasArmor ev h he (hne ev (List.mem_cons_self _ _)) ha)

/-- What a bomb collision needs to be delivered. -/
theorem step_bombHit {s s' : State} {bomb : Nat} {down : Bool}
    (hs : step (.bombHit bomb down) s = some s') :
    s.physicsRunning = true ∧ s.bombs.getD bomb false = true ∧ s' = bombCollide bomb down s := by
  simp only [step] at hs
  split_ifs at hs with hc
  simp only [Option.some.injEq] at hs
  simp only [Bool.and_eq_true] at hc
  exact ⟨hc.1, hc.2, hs.symm⟩

/-- A life-losing collision of a player with at least one life costs exactly one life. -/
theorem bombCollide_lives {s : State} (bomb : Nat) (down : Bool) (h : Inv s)
    (hp : s.physicsRunning = true) (hi : s.invincible = false) (ha : s.hasArmor = false) :
    (bombCollide bomb down s).lives = s.lives - 1 := by
  have hg := h.groundPound
  have h1 := h.alive hp
  by_cases hl : 1 ≤ s.lives - 1
  · rw [bombCollide_hit bomb down s hg hi ha hl]
    rfl
  · rw [bombCollide_fatal bomb down s hg hi ha hl, gameOver_eq]
    simp only
    omega

/-! ## The claims -/

/-- C1: the invariant `canDestroy → invincible` is broken in a reachable state. A hit at
time 0 schedules `invincible = false` for time 3000; the ultimate potion collected at time
1000 sets `invincible` and `canDestroy`; the callback of the hit then clears `invincible`
alone, and the next frame throws. -/
theorem canDestroy_without_invincible :
    run staleMercyTrace (init none) = some (stateAfter staleMercyTrace) ∧
      (stateAfter staleMercyTrace).now = 3000 ∧
      (stateAfter staleMercyTrace).canDestroy = true ∧
      (stateAfter staleMercyTrace).invincible = false ∧
      (stateAfter staleMercyTrace).gameIsOver = false ∧
      (update noKeys (stateAfter staleMercyTrace)).thrown = some assertMessage := by
  refine ⟨by decide, by decide, by decide, by decide, by decide, ?_⟩
  rw [update_thrown]
  decide

/-- C2, as stated, fails: after `gameOver` during the ultimate potion `canDestroy` is true
and `invincible` is false, and `update` returns without throwing. -/
theorem update_silent_when_game_is_over :
    run killedTrace (init none) = some (stateAfter killedTrace) ∧
      (stateAfter killedTrace).canDestroy = true ∧
      (stateAfter killedTrace).invincible = false ∧
      (stateAfter killedTrace).gameIsOver = true ∧
      (update noKeys (stateAfter killedTrace)).thrown = none := by
  refine ⟨by decide, by decide, by decide, by decide, ?_⟩
  rw [update_thrown]
  decide

/-- C2, amended: `update` throws the assertion error exactly when the game is not over,
`canDestroy` is true and `invincible` is false, and throws nothing otherwise. -/
theorem update_throws_iff (inp : Input) (s : State) :
    ((update inp s).thrown = some assertMessage ↔
        (s.gameIsOver = false ∧ s.canDestroy = true ∧ s.invincible = false)) ∧
      ((update inp s).thrown = none ↔
        ¬ (s.gameIsOver = false ∧ s.canDestroy = true ∧ s.invincible = false)) := by
  rw [update_thrown]
  cases s.gameIsOver <;> cases s.canDestroy <;> cases s.invincible <;> simp [assert]

/-- C3: armor absorbs exactly one hit. In a state of the game with `hasArmor` and without
`invincible`, a bomb collision leaves `lives` and `score` as they are, clears `hasArmor`,
sets `invincible` and clears `canDestroy`; after any later events among which no armor
potion is collected, a bomb collision of a player that is not invincible costs one life. -/
theorem armor_absorbs_one_hit (stored : Option Nat) (s s1 : State) (bomb : Nat) (down : Bool)
    (hr : Reachable stored s) (ha : s.hasArmor = true) (hi : s.invincible = false)
    (hs : step (.bombHit bomb down) s = some s1) :
    s1.lives = s.lives ∧ s1.score = s.score ∧ s1.hasArmor = false ∧ s1.invincible = true ∧
      s1.canDestroy = false ∧
      ∀ (evs : List Event) (s2 s3 : State) (bomb2 : Nat) (down2 : Bool),
        run evs s1 = some s2 → (∀ ev ∈ evs, ev ≠ .powerupCollect .armor) →
        s2.invincible = false → step (.bombHit bomb2 down2) s2 = some s3 →
        s2.hasArmor = false ∧ s3.lives = s2.lives - 1 := by
  obtain ⟨-, -, he⟩ := step_bombHit hs
  have h1 : Inv s1 := reachable_inv (reachable_step _ hr hs)
  rw [bombCollide_armor bomb down s (reachable_inv hr).groundPound hi ha] at he
  subst he
  refine ⟨rfl, rfl, rfl, rfl, rfl, ?_⟩
  intro evs s2 s3 bomb2 down2 hrun hne hi2 hs2
  obtain ⟨hp2, -, he2⟩ := step_bombHit hs2
  have h2 : Inv s2 := inv_run evs h1 hrun
  have ha2 : s2.hasArmor = false := run_hasArmor evs h1 hrun hne rfl
  subst he2
  exact ⟨ha2, bombCollide_lives bomb2 down2 h2 hp2 hi2 ha2⟩

/-- An instance: the armor potion of level 5 absorbs a ground-pound hit, and the next hit, after the invincibility has run out, takes the fifth life. -/
theorem armor_absorbs_one_hit_witness :
    (Reachable none (stateAfter armorTrace) ∧ (stateAfter armorTrace).hasArmor = true ∧
        (stateAfter armorTrace).invincible = false ∧ (stateAfter armorTrace).lives = 5 ∧
        step (.bombHit 0 true) (stateAfter armorTrace) = some (stateAfter armorHitTrace)) ∧
      ((stateAfter armorHitTrace).lives = (stateAfter armorTrace).lives ∧
        (stateAfter armorHitTrace).score = (stateAfter armorTrace).score ∧
        (stateAfter armorHitTrace).hasArmor = false ∧
        (stateAfter armorHitTrace).invincible = true ∧
        (stateAfter armorHitTrace).canDestroy = false ∧
        (stateAfter armorSpentTrace).hasArmor = false ∧
        (bombCollide 1 false (stateAfter armorSpentTrace)).lives = 5 - 1) := by
  have hr : Reachable none (stateAfter armorTrace) := ⟨armorTrace, by decide⟩
  have hs : step (.bombHit 0 true) (stateAfter armorTrace) = some (stateAfter armorHitTrace) := by
    decide
  have h := armor_absorbs_one_hit none (stateAfter armorTrace) (stateAfter armorHitTrace) 0 true
    hr (by decide) (by decide) hs
  obtain ⟨h1, h2, h3, h4, h5, h6⟩ := h
  have h7 := h6 [.elapse 1500, .timer false, .elapse 1500, .timer false] (stateAfter armorSpentTrace)
    (bombCollide 1 false (stateAfter armorSpentTrace)) 1 false (by decide)
    (by simp) (by decide) (by decide)
  have h8 : (stateAfter armorSpentTrace).lives = 5 := by decide
  exact ⟨⟨hr, by decide, by decide, by decide, hs⟩, h1, h2, h3, h4, h5, h7.1, h8 ▸ h7.2⟩

/-- C4: in a state of the game without `invincible` and without `hasArmor`, a bomb collision
takes exactly one life and leaves the score as it is; when a life is left the player is
invincible without `canDestroy` and the game goes on, and when none is left `gameOver` is
called, after which `gameIsOver` is true, `lives` is 0 and `invincible` is false. -/
theorem unprotected_hit_costs_one_life (stored : Option Nat) (s s1 : State) (bomb : Nat)
    (down : Bool) (hr : Reachable stored s) (hi : s.invincible = false)
    (ha : s.hasArmor = false) (hs : step (.bombHit bomb down) s = some s1) :
    s1.lives = s.lives - 1 ∧ s1.score = s.score ∧
      (s.lives - 1 ≥ 1 →
        s1.invincible = true ∧ s1.canDestroy = false ∧ s1.gameIsOver = false ∧
          s1.physicsRunning = true) ∧
      (s.lives - 1 < 1 →
        s1 = gameOver { s with canDestroy := false, lives := s.lives - 1 } ∧
          s1.gameIsOver = true ∧ s1.lives = 0 ∧ s1.invincible = false) := by
  obtain ⟨hp, hb, he⟩ := step_bombHit hs
  have hinv := reachable_inv hr
  have hg := hinv.groundPound
  have hlives := bombCollide_lives bomb down hinv hp hi ha
  have hover : s.gameIsOver = false := by
    cases ho : s.gameIsOver
    · rfl
    · exact absurd (mem_of_getD hb) (hinv.overBombs ho)
  subst he
  refine ⟨hlives, ?_, ?_, ?_⟩
  · by_cases hl : 1 ≤ s.lives - 1
    · rw [bombCollide_hit bomb down s hg hi ha hl]
      rfl
    · rw [bombCollide_fatal bomb down s hg hi ha hl, gameOver_eq]
  · intro hl
    rw [bombCollide_hit bomb down s hg hi ha hl]
    exact ⟨rfl, rfl, hover, hp⟩
  · intro hl
    have hl' : ¬ 1 ≤ s.lives - 1 := not_le.mpr hl
    rw [bombCollide_fatal bomb down s hg hi ha hl']
    refine ⟨rfl, ?_⟩
    rw [gameOver_eq]
    exact ⟨rfl, rfl, rfl⟩

/-- Two instances: a hit at level 2 with five lives, and the hit that ends a daredevil game. -/
theorem unprotected_hit_costs_one_life_witness :
    ((Reachable none (stateAfter levelTwoTrace) ∧ (stateAfter levelTwoTrace).lives = 5 ∧
        step (.bombHit 0 false) (stateAfter levelTwoTrace) = some (stateAfter mercyTrace)) ∧
      (stateAfter mercyTrace).lives = 5 - 1 ∧
      (stateAfter mercyTrace).score = (stateAfter levelTwoTrace).score ∧
      (stateAfter mercyTrace).invincible = true ∧ (stateAfter mercyTrace).canDestroy = false ∧
      (stateAfter mercyTrace).gameIsOver = false) ∧
    ((Reachable none (stateAfter daredevilTrace) ∧ (stateAfter daredevilTrace).lives = 1 ∧
        step (.bombHit 0 false) (stateAfter daredevilTrace) =
          some (stateAfter daredevilHitTrace)) ∧
      (stateAfter daredevilHitTrace).lives = 1 - 1 ∧
      (stateAfter daredevilHitTrace).gameIsOver = true ∧
      (stateAfter daredevilHitTrace).invincible = false) := by
  have hr : Reachable none (stateAfter levelTwoTrace) := ⟨levelTwoTrace, by decide⟩
  have hs : step (.bombHit 0 false) (stateAfter levelTwoTrace) = some (stateAfter mercyTrace) := by
    decide
  have hl : (stateAfter levelTwoTrace).lives = 5 := by decide
  have h := unprotected_hit_costs_one_life none (stateAfter levelTwoTrace)
    (stateAfter mercyTrace) 0 false hr (by decide) (by decide) hs
  have hr2 : Reachable none (stateAfter daredevilTrace) := ⟨daredevilTrace, by decide⟩
  have hs2 : step (.bombHit 0 false) (stateAfter daredevilTrace) =
      some (stateAfter daredevilHitTrace) := by
    decide
  have hl2 : (stateAfter daredevilTrace).lives = 1 := by decide
  have h2 := unprotected_hit_costs_one_life none (stateAfter daredevilTrace)
    (stateAfter daredevilHitTrace) 0 false hr2 (by decide) (by decide) hs2
  rw [hl] at h
  rw [hl2] at h2
  have h3 := h.2.2.1 (by decide)
  have h4 := h2.2.2.2 (by decide)
  exact ⟨⟨⟨hr, hl, hs⟩, h.1, h.2.1, h3.1, h3.2.1, h3.2.2.1⟩,
    ⟨hr2, hl2, hs2⟩, h2.1, h4.2.1, h4.2.2.2⟩

/-- C5: while `invincible` is true the player is unaffected by bombs. In a state of the game
with `invincible`, a bomb collision leaves `lives`, `hasArmor`, `invincible` and
`canDestroy` as they are; without `canDestroy` the whole state is unchanged, and with
`canDestroy` the bomb is disabled and the score grows by exactly 20. -/
theorem invincible_player_unaffected (stored : Option Nat) (s s1 : State) (bomb : Nat)
    (down : Bool) (hr : Reachable stored s) (hi : s.invincible = true)
    (hs : step (.bombHit bomb down) s = some s1) :
    s1.lives = s.lives ∧ s1.hasArmor = s.hasArmor ∧ s1.invincible = s.invincible ∧
      s1.canDestroy = s.canDestroy ∧
      (s.canDestroy = false → s1 = s) ∧
      (s.canDestroy = true →
        s1.bombs = s.bombs.set bomb false ∧ s1.bombs.getD bomb true = false ∧
          s1.score = s.score + 20) := by
  obtain ⟨hp, hb, he⟩ := step_bombHit hs
  rw [bombCollide_invincible bomb down s (reachable_inv hr).groundPound hi] at he
  subst he
  cases hc : s.canDestroy
  · simp [hc]
  · have hlt : bomb < s.bombs.length := by
      by_contra hge
      rw [List.getD_eq_default _ _ (not_lt.mp hge)] at hb
      cases hb
    simp [hc, List.getD_eq_getElem?_getD, hlt]

/-- Two instances: a collision during the invincibility after a hit, and a collision during the ultimate potion. -/
theorem invincible_player_unaffected_witness :
    ((Reachable none (stateAfter mercyTrace) ∧ (stateAfter mercyTrace).invincible = true ∧
        (stateAfter mercyTrace).canDestroy = false ∧
        step (.bombHit 0 true) (stateAfter mercyTrace) = some (stateAfter mercyTrace)) ∧
      (stateAfter mercyTrace).lives = 4) ∧
    ((Reachable none (stateAfter ultimateTrace) ∧ (stateAfter ultimateTrace).invincible = true ∧
        (stateAfter ultimateTrace).canDestroy = true ∧
        step (.bombHit 2 false) (stateAfter ultimateTrace) =
          some (bombCollide 2 false (stateAfter ultimateTrace))) ∧
      (bombCollide 2 false (stateAfter ultimateTrace)).lives = (stateAfter ultimateTrace).lives ∧
      (bombCollide 2 false (stateAfter ultimateTrace)).bombs = [true, true, false, true, true] ∧
      (bombCollide 2 false (stateAfter ultimateTrace)).score = 600 + 20) := by
  have hr : Reachable none (stateAfter mercyTrace) := ⟨mercyTrace, by decide⟩
  have hs : step (.bombHit 0 true) (stateAfter mercyTrace) = some (stateAfter mercyTrace) := by
    decide
  have h := invincible_player_unaffected none (stateAfter mercyTrace) (stateAfter mercyTrace)
    0 true hr (by decide) hs
  have hr2 : Reachable none (stateAfter ultimateTrace) := ⟨ultimateTrace, by decide⟩
  have hs2 : step (.bombHit 2 false) (stateAfter ultimateTrace) =
      some (bombCollide 2 false (stateAfter ultimateTrace)) := by
    decide
  have h2 := invincible_player_unaffected none (stateAfter ultimateTrace)
    (bombCollide 2 false (stateAfter ultimateTrace)) 2 false hr2 (by decide) hs2
  have h3 := h2.2.2.2.2.2 (by decide)
  have hb : (stateAfter ultimateTrace).bombs.set 2 false = [true, true, false, true, true] := by
    decide
  have hsc : (stateAfter ultimateTrace).score = 600 := by decide
  exact ⟨⟨⟨hr, by decide, by decide, hs⟩, by decide⟩,
    ⟨hr2, by decide, by decide, hs2⟩, h2.1, hb ▸ h3.1, hsc ▸ h3.2.2⟩

/-- C6, as stated, fails: after a hit at time 0 the only pending callback is the one due at
3000; a ground-pound collision at time 1000 changes nothing, and at time 3000 the callback
runs and `invincible` is false. -/
theorem ground_pound_does_not_extend_mercy :
    run mercyTrace (init none) = some (stateAfter mercyTrace) ∧
      (stateAfter mercyTrace).now = 0 ∧
      (stateAfter mercyTrace).invincible = true ∧
      (stateAfter mercyTrace).jumpEnabled = false ∧
      (stateAfter mercyTrace).invinciblePowerup = false ∧
      (stateAfter mercyTrace).timers = [⟨3000, .mercy false⟩] ∧
      run poundTrace (stateAfter mercyTrace) = some (stateAfter (mercyTrace ++ poundTrace)) ∧
      (stateAfter (mercyTrace ++ poundTrace)).now = 3000 ∧
      (stateAfter (mercyTrace ++ poundTrace)).invincible = false ∧
      (stateAfter (mercyTrace ++ poundTrace)).timers = [] := by
  refine ⟨by decide, by decide, by decide, by decide, by decide, by decide, by decide,
    by decide, by decide, by decide⟩

/-- C6, amended: a bomb collision during the invincibility that follows a hit (`invincible`
true, `canDestroy` false), ground-pounding or not, changes nothing: the state and its
pending callbacks stay as they are, every later run proceeds as without the collision,
and the pending callback of the hit still clears `invincible` when it runs. -/
theorem collision_during_mercy_changes_nothing (stored : Option Nat) (s s1 : State)
    (bomb : Nat) (down : Bool) (hr : Reachable stored s) (hi : s.invincible = true)
    (hc : s.canDestroy = false) (hs : step (.bombHit bomb down) s = some s1) :
    s1 = s ∧ s1.timers = s.timers ∧
      (∀ evs : List Event, run (.bombHit bomb down :: evs) s = run evs s) ∧
      (∀ (shift : Bool) (s2 : State), (fire (.mercy false) shift s2).invincible = false) ∧
      (∀ (shift : Bool) (s2 : State), (fire .mercyEnd shift s2).invincible = false) := by
  obtain ⟨hp, hb, he⟩ := step_bombHit hs
  rw [bombCollide_invincible bomb down s (reachable_inv hr).groundPound hi] at he
  simp only [hc, Bool.false_eq_true, if_false] at he
  subst he
  refine ⟨rfl, rfl, ?_, ?_, ?_⟩
  · intro evs
    simp only [run, hs]
  · intro shift s2
    rfl
  · intro shift s2
    rfl

/-- An instance: a ground-pound collision right after a hit at level 2. -/
theorem collision_during_mercy_changes_nothing_witness :
    (Reachable none (stateAfter mercyTrace) ∧ (stateAfter mercyTrace).invincible = true ∧
        (stateAfter mercyTrace).canDestroy = false ∧
        step (.bombHit 0 true) (stateAfter mercyTrace) = some (stateAfter mercyTrace)) ∧
      run [.bombHit 0 true, .elapse 3000, .timer false] (stateAfter mercyTrace) =
        run [.elapse 3000, .timer false] (stateAfter mercyTrace) ∧
      (fire (.mercy false) false (stateAfter mercyTrace)).invincible = false := by
  have hr : Reachable none (stateAfter mercyTrace) := ⟨mercyTrace, by decide⟩
  have hs : step (.bombHit 0 true) (stateAfter mercyTrace) = some (stateAfter mercyTrace) := by
    decide
  have h := collision_during_mercy_changes_nothing none (stateAfter mercyTrace)
    (stateAfter mercyTrace) 0 true hr (by decide) (by decide) hs
  exact ⟨⟨hr, by decide, by decide, hs⟩, h.2.2.1 [.elapse 3000, .timer false],
    h.2.2.2.1 false (stateAfter mercyTrace)⟩

/-- C7: `invinciblePowerup` does not stay true for the duration of a power-up. The ultimate
potion is collected at time 5000, while the callback of an invincibility potion collected
at time 0 is pending; at time 10000, within the 10000 ms of the ultimate potion and with the
game going on, that callback clears `invinciblePowerup`, `invincible` and `canDestroy`. -/
theorem powerup_flags_cleared_by_stale_callback :
    run twoPotionsTrace (init none) = some (stateAfter twoPotionsTrace) ∧
      (stateAfter twoPotionsTrace).now = 5000 ∧
      (stateAfter twoPotionsTrace).invinciblePowerup = true ∧
      (stateAfter twoPotionsTrace).timers =
        [⟨10000, .invincibilityEnd⟩, ⟨5000 + duration .ultimate, .ultimateEnd⟩] ∧
      run stalePotionTrace (init none) = some (stateAfter stalePotionTrace) ∧
      (stateAfter stalePotionTrace).now = 10000 ∧
      (stateAfter stalePotionTrace).gameIsOver = false ∧
      (stateAfter stalePotionTrace).invinciblePowerup = false ∧
      (stateAfter stalePotionTrace).invincible = false ∧
      (stateAfter stalePotionTrace).canDestroy = false ∧
      (stateAfter stalePotionTrace).timers = [⟨15000, .ultimateEnd⟩] := by
  refine ⟨by decide, by decide, by decide, by decide, by decide, by decide, by decide,
    by decide, by decide, by decide, by decide⟩

/-- C8: daredevil mode is played with a single life. Activating the daredevil cheat sets
`daredevil` and sets `lives` to 1, and after any events that follow `daredevil` is still
set and `lives` is at most 1. -/
theorem daredevil_single_life (s s1 : State) (hd : s.daredevil = false)
    (hs : step (.keycombo daredevilCodes) s = some s1) :
    s1.daredevil = true ∧ s1.lives = 1 ∧
      ∀ (evs : List Event) (s2 : State), run evs s1 = some s2 →
        s2.daredevil = true ∧ s2.lives ≤ 1 := by
  simp only [step] at hs
  split_ifs at hs
  simp only [Option.some.injEq] at hs
  rw [keycombomatch_daredevil s hd] at hs
  subst hs
  refine ⟨rfl, rfl, ?_⟩
  intro evs s2 hrun
  have h2 := daredevil_run evs (daredevil_activate s) hrun
  exact ⟨h2.mode, h2.oneLife⟩

/-- An instance: daredevil mode is activated at the start, and the first hit ends the game. -/
theorem daredevil_single_life_witness :
    ((init none).daredevil = false ∧ (init none).lives = 5 ∧
        step (.keycombo daredevilCodes) (init none) = some (stateAfter activatedTrace)) ∧
      (stateAfter activatedTrace).daredevil = true ∧ (stateAfter activatedTrace).lives = 1 ∧
      run (collectAll (fun _ => 0) ++ [.bombHit 0 false]) (stateAfter activatedTrace) =
        some (stateAfter daredevilHitTrace) ∧
      (stateAfter daredevilHitTrace).lives ≤ 1 := by
  have hs : step (.keycombo daredevilCodes) (init none) = some (stateAfter activatedTrace) := by
    decide
  have h := daredevil_single_life (init none) (stateAfter activatedTrace) rfl hs
  have hrun : run (collectAll (fun _ => 0) ++ [.bombHit 0 false]) (stateAfter activatedTrace) =
      some (stateAfter daredevilHitTrace) := by
    decide
  exact ⟨⟨rfl, rfl, hs⟩, h.1, h.2.1, hrun, (h.2.2 _ _ hrun).2⟩

/-- C9: power-ups are disabled in daredevil mode. Activating the daredevil cheat despawns
every power-up; after any events that follow no power-up is visible, and the star callback
run in such a state, for every star, level and rolls, leaves every power-up invisible. -/
theorem daredevil_no_powerups (s s1 : State) (hd : s.daredevil = false)
    (hs : step (.keycombo daredevilCodes) s = some s1) :
    (∀ key, s1.powerups.visible key = false) ∧
      ∀ (evs : List Event) (s2 : State), run evs s1 = some s2 →
        (∀ key, s2.powerups.visible key = false) ∧
        ∀ (star : Nat) (rolls : Nat → Nat) (key : PowerupKey),
          (starOverlap star rolls s2).powerups.visible key = false := by
  simp only [step] at hs
  split_ifs at hs
  simp only [Option.some.injEq] at hs
  rw [keycombomatch_daredevil s hd] at hs
  subst hs
  have h1 := daredevil_activate s
  refine ⟨fun key => by rw [h1.noPowerup]; exact visible_none key, ?_⟩
  intro evs s2 hrun
  have h2 := daredevil_run evs h1 hrun
  refine ⟨fun key => by rw [h2.noPowerup]; exact visible_none key, ?_⟩
  intro star rolls key
  rw [(daredevil_starOverlap star rolls h2).noPowerup]
  exact visible_none key

/-- An instance: three power-ups are on screen at level 6 when daredevil mode is activated, and level 7 spawns none. -/
theorem daredevil_no_powerups_witness :
    ((stateAfter (playLevels 5 (fun _ => 0))).daredevil = false ∧
        (stateAfter (playLevels 5 (fun _ => 0))).powerups = ⟨true, true, false, true, false⟩ ∧
        step (.keycombo daredevilCodes) (stateAfter (playLevels 5 (fun _ => 0))) =
          some (stateAfter despawnTrace)) ∧
      (stateAfter despawnTrace).powerups.visible .ultimate = false ∧
      run (collectAll (fun _ => 0)) (stateAfter despawnTrace) =
        some (stateAfter (despawnTrace ++ collectAll (fun _ => 0))) ∧
      (stateAfter (despawnTrace ++ collectAll (fun _ => 0))).level = 7 ∧
      (stateAfter (despawnTrace ++ collectAll (fun _ => 0))).powerups.visible .ultimate =
        false := by
  have hs : step (.keycombo daredevilCodes) (stateAfter (playLevels 5 (fun _ => 0))) =
      some (stateAfter despawnTrace) := by
    decide
  have h := daredevil_no_powerups (stateAfter (playLevels 5 (fun _ => 0)))
    (stateAfter despawnTrace) (by decide) hs
  have hrun : run (collectAll (fun _ => 0)) (stateAfter despawnTrace) =
      some (stateAfter (despawnTrace ++ collectAll (fun _ => 0))) := by
    decide
  exact ⟨⟨by decide, by decide, hs⟩, h.1 .ultimate, hrun, by decide,
    (h.2 _ _ hrun).1 .ultimate⟩

/-- C10: cheat codes do not work in daredevil mode. With `daredevil` set, the key-combo
handler returns the state it was given, whatever the key codes of the matched combo. -/
theorem cheats_disabled_in_daredevil (s : State) (codes : List Nat) (hd : s.daredevil = true) :
    keycombomatch codes s = s ∧
      ∀ s1 : State, step (.keycombo codes) s = some s1 → s1 = s := by
  have h : keycombomatch codes s = s := by
    simp [keycombomatch, hd]
  refine ⟨h, ?_⟩
  intro s1 hs
  simp only [step] at hs
  split_ifs at hs
  simp only [Option.some.injEq] at hs
  rw [← hs, h]

/-- An instance: the Konami code does nothing in daredevil mode, and changes the state outside it. -/
theorem cheats_disabled_in_daredevil_witness :
    (stateAfter activatedTrace).daredevil = true ∧
      keycombomatch konamiCodes (stateAfter activatedTrace) = stateAfter activatedTrace ∧
      keycombomatch konamiCodes (init none) ≠ init none := by
  have h := cheats_disabled_in_daredevil (stateAfter activatedTrace) konamiCodes (by decide)
  exact ⟨by decide, h.1, by decide⟩

/-! ## The level, the stars and the high score -/

theorem levelUp_fields (rolls : Nat → Nat) (s : State) :
    (levelUp rolls s).level = (if s.level ≥ 1 then s.level + 1 else s.level) ∧
      (levelUp rolls s).stars = s.stars.map (fun _ => true) ∧
      (levelUp rolls s).bombs = s.bombs ++ [true] ∧
      (levelUp rolls s).score = s.score := by
  unfold levelUp
  dsimp only [createBomb]
  split_ifs <;>
    first
    | exact ⟨rfl, rfl, rfl, rfl⟩
    | (rw [bonusLife_eq, spawnPowerup_frame]; exact ⟨rfl, rfl, rfl, rfl⟩)

theorem starOverlap_last (star : Nat) (rolls : Nat → Nat) (s : State)
    (h : countActive (s.stars.set star false) = 0) :
    starOverlap star rolls s =
      levelUp rolls { s with stars := s.stars.set star false, score := s.score + 10 } := by
  unfold starOverlap
  simp [h]

theorem starOverlap_more (star : Nat) (rolls : Nat → Nat) (s : State)
    (h : countActive (s.stars.set star false) ≠ 0) :
    starOverlap star rolls s =
      { s with stars := s.stars.set star false, score := s.score + 10 } := by
  unfold starOverlap
  simp [h]

/-- Disabling an active member of a group takes one from the count of active members. -/
theorem countActive_set {l : List Bool} {i : Nat} (h : l.getD i false = true) :
    countActive (l.set i false) + 1 = countActive l := by
  induction l generalizing i with
  | nil => simp at h
  | cons x xs ih =>
    cases i with
    | zero =>
      simp at h
      subst h
      simp [countActive]
    | succ n =>
      have h2 : xs.getD n false = true := by simpa using h
      have := ih h2
      cases x <;> simp [countActive] at this ⊢ <;> omega

theorem steady_starOverlap {high : Nat} {p : Bool} {s : State} (star : Nat)
    (rolls : Nat → Nat) (h : Steady high p s) : Steady high p (starOverlap star rolls s) := by
  obtain ⟨l, st, b, pw, he⟩ := starOverlap_frame star rolls s
  by_cases hc : countActive (s.stars.set star false) = 0
  · have hf := levelUp_fields rolls
      { s with stars := s.stars.set star false, score := s.score + 10 }
    rw [← starOverlap_last star rolls s hc] at hf
    refine ⟨?_, ?_, ?_, ?_⟩
    · rw [he]; exact h.highScore
    · rw [hf.1]; have := h.level; simp only; split_ifs <;> omega
    · rw [hf.2.1]; simpa using h.stars
    · rw [he]; exact h.pounded
  · rw [starOverlap_more star rolls s hc]
    exact ⟨h.highScore, h.level, by simpa using h.stars, h.pounded⟩

theorem steady_runCheat {high : Nat} {p : Bool} {s : State} (cheat : Cheat)
    (h : Steady high p s) : Steady high p (runCheat cheat s) := by
  cases cheat <;>
    simp only [runCheat, wait, despawnEverything_eq, despawnPowerUps, debug, gameOver_eq] <;>
    first
    | exact h
    | exact ⟨h.highScore, h.level, h.stars, h.pounded⟩
    | exact ⟨h.highScore, h.level, by simpa using h.stars, h.pounded⟩

theorem steady_fire {high : Nat} {p : Bool} {s : State} (cb : Callback) (shift : Bool)
    (h : Steady high p s) : Steady high p (fire cb shift s) := by
  cases cb <;> simp only [fire, wait, gameOver_eq] <;>
    first
    | exact h
    | exact ⟨h.highScore, h.level, h.stars, h.pounded⟩
    | (split_ifs <;>
        first
        | exact h
        | exact ⟨h.highScore, h.level, h.stars, h.pounded⟩
        | exact ⟨h.highScore, h.level, h.stars, fun _ => rfl⟩
        | exact ⟨h.highScore, h.level, by simpa using h.stars, h.pounded⟩)

theorem steady_step {high : Nat} {p : Bool} {s s' : State} (ev : Event) (hi : Inv s)
    (h : Steady high p s) (hs : step ev s = some s') : Steady high p s' := by
  have hg := hi.groundPound
  cases ev with
  | frame inp =>
    simp only [step, Option.some.injEq] at hs
    subst hs
    obtain ⟨vx, vy, u, j, y, ts, he⟩ := update_frame inp s
    rw [he]
    exact ⟨h.highScore, h.level, h.stars, h.pounded⟩
  | physics y velX velY =>
    simp only [step] at hs
    split_ifs at hs
    simp only [Option.some.injEq] at hs
    subst hs
    exact ⟨h.highScore, h.level, h.stars, h.pounded⟩
  | bombHit bomb down =>
    simp only [step] at hs
    split_ifs at hs
    simp only [Option.some.injEq] at hs
    subst hs
    cases hinv : s.invincible
    · cases ha : s.hasArmor
      · by_cases hl : 1 ≤ s.lives - 1
        · rw [bombCollide_hit bomb down s hg hinv ha hl]
          exact ⟨h.highScore, h.level, h.stars, h.pounded⟩
        · rw [bombCollide_fatal bomb down s hg hinv ha hl, gameOver_eq]
          exact ⟨h.highScore, h.level, by simpa using h.stars, h.pounded⟩
      · rw [bombCollide_armor bomb down s hg hinv ha]
        exact ⟨h.highScore, h.level, h.stars, h.pounded⟩
    · rw [bombCollide_invincible bomb down s hg hinv]
      split_ifs
      · exact ⟨h.highScore, h.level, h.stars, h.pounded⟩
      · exact h
  | starCollect star rolls =>
    simp only [step] at hs
    split_ifs at hs
    simp only [Option.some.injEq] at hs
    subst hs
    exact steady_starOverlap star rolls h
  | powerupCollect key =>
    simp only [step] at hs
    split_ifs at hs
    simp only [Option.some.injEq] at hs
    subst hs
    cases key <;> simp only [powerupOverlap, onCollect, wait] <;>
      first
      | exact ⟨h.highScore, h.level, h.stars, h.pounded⟩
      | (split_ifs <;> exact ⟨h.highScore, h.level, h.stars, h.pounded⟩)
  | keycombo codes =>
    simp only [step] at hs
    split_ifs at hs
    simp only [Option.some.injEq] at hs
    subst hs
    rcases keycombomatch_cases codes s with he | ⟨cheat, he⟩
    · rw [he]
      exact h
    · rw [he]
      exact steady_runCheat cheat h
  | timer shift =>
    simp only [step] at hs
    cases he : earliest s.timers with
    | none => simp [he] at hs
    | some t =>
      simp only [he] at hs
      split_ifs at hs
      simp only [Option.some.injEq] at hs
      subst hs
      exact steady_fire t.cb shift ⟨h.highScore, h.level, h.stars, h.pounded⟩
  | elapse ms =>
    simp only [step] at hs
    split_ifs at hs
    simp only [Option.some.injEq] at hs
    subst hs
    exact ⟨h.highScore, h.level, h.stars, h.pounded⟩

theorem steady_run {high : Nat} {p : Bool} {s s' : State} (evs : List Event) (hi : Inv s)
    (h : Steady high p s) (hs : run evs s = some s') : Steady high p s' := by
  induction evs generalizing s with
  | nil =>
    simp only [run, Option.some.injEq] at hs
    subst hs
    exact h
  | cons ev evs ih =>
    simp only [run] at hs
    cases he : step ev s with
    | none => simp [he] at hs
    | some s1 =>
      simp only [he] at hs
      exact ih (inv_step ev hi he) (steady_step ev hi h he) hs

theorem steady_init (stored : Option Nat) :
    Steady (init stored).highScore false (init stored) :=
  ⟨rfl, le_refl _, rfl, fun h => by cases h⟩

theorem reachable_steady {stored : Option Nat} {s : State} (h : Reachable stored s) :
    Steady (init stored).highScore false s := by
  obtain ⟨evs, he⟩ := h
  exact steady_run evs (inv_init stored) (steady_init stored) he

/-- What a star collection needs to be delivered. -/
theorem step_starCollect {s s' : State} {star : Nat} {rolls : Nat → Nat}
    (hs : step (.starCollect star rolls) s = some s') :
    s.physicsRunning = true ∧ s.stars.getD star false = true ∧
      s' = starOverlap star rolls s := by
  simp only [step] at hs
  split_ifs at hs with hc
  simp only [Option.some.injEq] at hs
  simp only [Bool.and_eq_true] at hc
  exact ⟨hc.1, hc.2, hs.symm⟩

/-! ## Collecting a star -/

/-- C11: collecting a star adds exactly 10 to the score. If it was the last active star
the level grows by exactly 1, all 12 stars are active again and exactly one bomb, an active
one, is added to the group of bombs; if other stars are still active the level and the
bombs are as before and the star collected is the only one that changed. -/
theorem star_collection (stored : Option Nat) (s s1 : State) (star : Nat) (rolls : Nat → Nat)
    (hr : Reachable stored s) (hs : step (.starCollect star rolls) s = some s1) :
    s1.score = s.score + 10 ∧
      (countActive s.stars = 1 →
        s1.level = s.level + 1 ∧ s1.stars = List.replicate 12 true ∧
          s1.bombs = s.bombs ++ [true]) ∧
      (countActive s.stars ≠ 1 →
        s1.level = s.level ∧ s1.bombs = s.bombs ∧ s1.stars = s.stars.set star false ∧
          0 < countActive s1.stars) := by
  obtain ⟨-, hact, he⟩ := step_starCollect hs
  have hst := reachable_steady hr
  have hcount := countActive_set hact
  obtain ⟨l, st, b, pw, hframe⟩ := starOverlap_frame star rolls s
  subst he
  refine ⟨by rw [hframe], ?_, ?_⟩
  · intro h1
    have h0 : countActive (s.stars.set star false) = 0 := by omega
    have hf := levelUp_fields rolls
      { s with stars := s.stars.set star false, score := s.score + 10 }
    rw [← starOverlap_last star rolls s h0] at hf
    refine ⟨?_, ?_, hf.2.2.1⟩
    · rw [hf.1]
      have := hst.level
      simp only
      split_ifs <;> omega
    · rw [hf.2.1]
      have hlen : (s.stars.set star false).length = 12 := by simpa using hst.stars
      simp only
      rw [List.eq_replicate_iff]
      exact ⟨by simpa using hlen, by simp⟩
  · intro h1
    have h0 : countActive (s.stars.set star false) ≠ 0 := by omega
    rw [starOverlap_more star rolls s h0]
    exact ⟨rfl, rfl, rfl, by simp only; omega⟩

/-- Two instances: the eleventh star of level 1, and the twelfth, which completes it. -/
theorem star_collection_witness :
    ((Reachable none (stateAfter (elevenStarsTrace.take 10)) ∧
        countActive (stateAfter (elevenStarsTrace.take 10)).stars = 2 ∧
        step (.starCollect 10 (fun _ => 99)) (stateAfter (elevenStarsTrace.take 10)) =
          some (stateAfter elevenStarsTrace)) ∧
      (stateAfter elevenStarsTrace).score = 100 + 10 ∧
      (stateAfter elevenStarsTrace).level = 1 ∧ (stateAfter elevenStarsTrace).bombs = []) ∧
    ((Reachable none (stateAfter elevenStarsTrace) ∧
        countActive (stateAfter elevenStarsTrace).stars = 1 ∧
        step (.starCollect 11 (fun _ => 99)) (stateAfter elevenStarsTrace) =
          some (stateAfter levelTwoTrace)) ∧
      (stateAfter levelTwoTrace).score = 110 + 10 ∧ (stateAfter levelTwoTrace).level = 1 + 1 ∧
      (stateAfter levelTwoTrace).stars = List.replicate 12 true ∧
      (stateAfter levelTwoTrace).bombs = [] ++ [true]) := by
  have hr1 : Reachable none (stateAfter (elevenStarsTrace.take 10)) :=
    ⟨elevenStarsTrace.take 10, by decide⟩
  have hs1 : step (.starCollect 10 (fun _ => 99)) (stateAfter (elevenStarsTrace.take 10)) =
      some (stateAfter elevenStarsTrace) := by
    decide
  have h1 := star_collection none _ _ 10 (fun _ => 99) hr1 hs1
  have hr2 : Reachable none (stateAfter elevenStarsTrace) := ⟨elevenStarsTrace, by decide⟩
  have hs2 : step (.starCollect 11 (fun _ => 99)) (stateAfter elevenStarsTrace) =
      some (stateAfter levelTwoTrace) := by
    decide
  have h2 := star_collection none _ _ 11 (fun _ => 99) hr2 hs2
  have e1 : (stateAfter (elevenStarsTrace.take 10)).score = 100 := by decide
  have e2 : (stateAfter (elevenStarsTrace.take 10)).level = 1 := by decide
  have e3 : (stateAfter (elevenStarsTrace.take 10)).bombs = [] := by decide
  have e4 : (stateAfter elevenStarsTrace).score = 110 := by decide
  have e5 : (stateAfter elevenStarsTrace).level = 1 := by decide
  have e6 : (stateAfter elevenStarsTrace).bombs = [] := by decide
  have c1 : countActive (stateAfter (elevenStarsTrace.take 10)).stars = 2 := by decide
  have c2 : countActive (stateAfter elevenStarsTrace).stars = 1 := by decide
  have h1b := h1.2.2 (by rw [c1]; decide)
  have h2b := h2.2.1 c2
  rw [e1] at h1
  rw [e2, e3] at h1b
  rw [e4] at h2
  rw [e5, e6] at h2b
  exact ⟨⟨⟨hr1, c1, hs1⟩, h1.1, h1b.1, h1b.2.1⟩, ⟨hr2, c2, hs2⟩, h2.1, h2b.1, h2b.2.1, h2b.2.2⟩

/-! ## Spawning -/

/-- The loop of the source spawns the power-up that the words of the specification pick. -/
theorem spawnLoop_eq (rolls : Nat → Nat) (refs : PowerupRefs) :
    spawnLoop rolls powerupKeys 0 refs =
      match firstToSpawn rolls refs with
      | some key => refs.setVisible key true
      | none => refs := by
  simp only [powerupKeys, spawnLoop, firstToSpawn, List.find?, rollIndex]
  generalize (!refs.visible .ultimate && decide (rolls 0 < spawnRate .ultimate)) = b0
  generalize (!refs.visible .armor && decide (rolls (0 + 1) < spawnRate .armor)) = b1
  generalize
    (!refs.visible .invincibility && decide (rolls (0 + 1 + 1) < spawnRate .invincibility)) = b2
  generalize (!refs.visible .oneUp && decide (rolls (0 + 1 + 1 + 1) < spawnRate .oneUp)) = b3
  generalize (!refs.visible .stop && decide (rolls (0 + 1 + 1 + 1 + 1) < spawnRate .stop)) = b4
  cases b0 <;> cases b1 <;> cases b2 <;> cases b3 <;> cases b4 <;> rfl

theorem setVisible_changes_one (refs : PowerupRefs) (key : PowerupKey) :
    (powerupKeys.filter
      (fun k => (refs.setVisible key true).visible k != refs.visible k)).length ≤ 1 := by
  rcases refs with ⟨a, b, c, d, e⟩
  cases key <;> cases a <;> cases b <;> cases c <;> cases d <;> cases e <;> decide

theorem unchanged_changes_none (refs : PowerupRefs) :
    (powerupKeys.filter (fun k => refs.visible k != refs.visible k)).length ≤ 1 := by
  simp

theorem levelUp_powerups (rolls : Nat → Nat) (s : State) (hd : s.daredevil = false) :
    (levelUp rolls s).powerups =
      (spawnPowerup rolls
        { s with level := if s.level ≥ 1 then s.level + 1 else s.level,
                 stars := s.stars.map (fun _ => true), bombs := s.bombs ++ [true] }).powerups := by
  unfold levelUp
  simp [createBomb, hd, bonusLife_eq]

theorem spawnPowerup_powerups (rolls : Nat → Nat) (s : State) :
    (spawnPowerup rolls s).powerups =
      if s.level > 5 then spawnLoop rolls powerupKeys 0 s.powerups
      else if s.level = 4 then s.powerups.setVisible .oneUp true
      else if s.level = 5 then
        (if rolls 0 < 50 then s.powerups.setVisible .armor true else s.powerups)
      else s.powerups := by
  unfold spawnPowerup
  simp only [levelCheck, List.foldl, Bool.false_or, beq_iff_eq]
  split_ifs <;> rfl

/-- C12: power-up spawning when a level is completed outside daredevil mode, by the new
level and the rolls (in hundredths). Levels 2 and 3 spawn nothing; level 4 spawns the
extra-life potion; level 5 spawns the armor potion iff the roll is below 50, which 50 of
the 100 rolls are; a level above 5 spawns the first power-up, in the order ultimate, armor,
invincibility, oneUp, stop, that is not visible and whose own roll is below its rate
(5, 40, 30, 60, 0); at most one power-up changes its visibility. -/
theorem powerup_spawning (stored : Option Nat) (s s1 : State) (star : Nat)
    (rolls : Nat → Nat) (hr : Reachable stored s) (hd : s.daredevil = false)
    (hlast : countActive s.stars = 1) (hs : step (.starCollect star rolls) s = some s1) :
    s1.level = s.level + 1 ∧
      ((s1.level = 2 ∨ s1.level = 3) → s1.powerups = s.powerups) ∧
      (s1.level = 4 → s1.powerups = s.powerups.setVisible .oneUp true) ∧
      (s1.level = 5 →
        s1.powerups = if rolls 0 < 50 then s.powerups.setVisible .armor true else s.powerups) ∧
      (5 < s1.level →
        s1.powerups =
          match firstToSpawn rolls s.powerups with
          | some key => s.powerups.setVisible key true
          | none => s.powerups) ∧
      (powerupKeys.filter
        (fun key => s1.powerups.visible key != s.powerups.visible key)).length ≤ 1 ∧
      ((List.range 100).filter (fun r => decide (r < 50))).length = 50 ∧
      powerupKeys = [.ultimate, .armor, .invincibility, .oneUp, .stop] ∧
      powerupKeys.map spawnRate = [5, 40, 30, 60, 0] := by
  obtain ⟨-, hact, he⟩ := step_starCollect hs
  have hst := reachable_steady hr
  have hcount := countActive_set hact
  have h0 : countActive (s.stars.set star false) = 0 := by omega
  have hlev : 1 ≤ s.level := hst.level
  have hf := levelUp_fields rolls
    { s with stars := s.stars.set star false, score := s.score + 10 }
  have hp := levelUp_powerups rolls
    { s with stars := s.stars.set star false, score := s.score + 10 } hd
  rw [spawnPowerup_powerups, spawnLoop_eq] at hp
  rw [← starOverlap_last star rolls s h0, ← he] at hf hp
  have hl1 : s1.level = s.level + 1 := by
    rw [hf.1]
    simp only
    split_ifs <;> omega
  simp only [ge_iff_le, hlev, if_true] at hp
  refine ⟨hl1, ?_, ?_, ?_, ?_, ?_, by decide, rfl, rfl⟩
  · intro h
    rw [hp]
    have h5 : ¬ s.level + 1 > 5 := by omega
    have h4 : ¬ s.level + 1 = 4 := by omega
    have h55 : ¬ s.level + 1 = 5 := by omega
    simp only [h5, h4, h55, if_false]
  · intro h
    rw [hp]
    have h4 : s.level + 1 = 4 := by omega
    simp [h4]
  · intro h
    rw [hp]
    have h55 : s.level + 1 = 5 := by omega
    simp [h55]
  · intro h
    rw [hp]
    have h5 : s.level + 1 > 5 := by omega
    simp only [h5, if_true]
  · rw [hp]
    split_ifs
    · cases firstToSpawn rolls s.powerups with
      | none => exact unchanged_changes_none _
      | some key => exact setVisible_changes_one _ key
    · exact setVisible_changes_one _ _
    · exact setVisible_changes_one _ _
    · exact unchanged_changes_none _
    · exact unchanged_changes_none _

/-- An instance: the last star of level 5 with the rolls 99, 99, 0 spawns the invincibility
potion at level 6, the extra-life potion of level 4 being still on screen. -/
theorem powerup_spawning_witness :
    (Reachable none (stateAfter noLuckTrace) ∧ (stateAfter noLuckTrace).daredevil = false ∧
        countActive (stateAfter noLuckTrace).stars = 1 ∧
        (stateAfter noLuckTrace).level = 5 ∧
        (stateAfter noLuckTrace).powerups = ⟨false, false, false, true, false⟩ ∧
        step (.starCollect 11 (fun k => if k = 2 then 0 else 99)) (stateAfter noLuckTrace) =
          some (stateAfter
            (noLuckTrace ++ [.starCollect 11 (fun k => if k = 2 then 0 else 99)]))) ∧
      (stateAfter
        (noLuckTrace ++ [.starCollect 11 (fun k => if k = 2 then 0 else 99)])).level = 5 + 1 ∧
      (stateAfter
        (noLuckTrace ++ [.starCollect 11 (fun k => if k = 2 then 0 else 99)])).powerups =
          ⟨false, false, true, true, false⟩ := by
  have hr : Reachable none (stateAfter noLuckTrace) := ⟨noLuckTrace, by decide⟩
  have hs : step (.starCollect 11 (fun k => if k = 2 then 0 else 99)) (stateAfter noLuckTrace) =
      some (stateAfter
        (noLuckTrace ++ [.starCollect 11 (fun k => if k = 2 then 0 else 99)])) := by
    decide
  have h := powerup_spawning none _ _ 11 _ hr (by decide) (by decide) hs
  have e1 : (stateAfter noLuckTrace).level = 5 := by decide
  have e2 : (stateAfter noLuckTrace).powerups = ⟨false, false, false, true, false⟩ := by decide
  have h6 := h.2.2.2.2.1 (by rw [h.1, e1]; decide)
  rw [e1] at h
  rw [e2] at h6
  exact ⟨⟨hr, by decide, by decide, e1, e2, hs⟩, h.1, h6.trans (by decide)⟩

/-- C13: the high score read at startup is the number stored under `"highScore"`, or 0 when
there is none, and stays the same during the game; `gameOver` and the `beforeunload`
listener overwrite the stored number with the score if the score exceeds that high score,
and leave local storage as it is otherwise, in particular when the two are equal. -/
theorem high_score_storage (stored : Option Nat) (s : State) (hr : Reachable stored s) :
    (init stored).highScore = stored.getD 0 ∧ (init stored).storage = stored ∧
      s.highScore = stored.getD 0 ∧
      (gameOver s).storage = (if s.score > s.highScore then some s.score else s.storage) ∧
      (beforeunload s).storage = (if s.score > s.highScore then some s.score else s.storage) ∧
      (s.score ≤ s.highScore → (gameOver s).storage = s.storage ∧ beforeunload s = s) ∧
      (s.score = s.highScore → (gameOver s).storage = s.storage ∧ beforeunload s = s) := by
  have h0 : (init stored).highScore = stored.getD 0 := by
    cases stored <;> rfl
  have hst := reachable_steady hr
  have hg : (gameOver s).storage = (if s.score > s.highScore then some s.score else s.storage) := by
    rw [gameOver_eq]
  have hb : beforeunload s =
      if s.score > s.highScore then { s with storage := some s.score } else s := by
    simp [beforeunload, debug]
  have hle : s.score ≤ s.highScore → (gameOver s).storage = s.storage ∧ beforeunload s = s := by
    intro hle
    have hn : ¬ s.score > s.highScore := by omega
    rw [hg, hb]
    simp only [hn, if_false, and_self]
  refine ⟨h0, rfl, hst.highScore.trans h0, hg, ?_, hle, fun he => hle (le_of_eq he)⟩
  rw [hb]
  split_ifs <;> rfl

/-- Two instances: the first level ends with score 120, with 100 and with 120 in local
storage at startup. -/
theorem high_score_storage_witness :
    (Reachable (some 100) (levelTwoWith (some 100)) ∧ (levelTwoWith (some 100)).score = 120 ∧
      (levelTwoWith (some 100)).highScore = 100 ∧
      (levelTwoWith (some 100)).storage = some 100 ∧
      (gameOver (levelTwoWith (some 100))).storage = some 120 ∧
      (beforeunload (levelTwoWith (some 100))).storage = some 120) ∧
    (Reachable (some 120) (levelTwoWith (some 120)) ∧ (levelTwoWith (some 120)).score = 120 ∧
      (levelTwoWith (some 120)).highScore = 120 ∧
      (gameOver (levelTwoWith (some 120))).storage = some 120 ∧
      beforeunload (levelTwoWith (some 120)) = levelTwoWith (some 120)) := by
  have hr1 : Reachable (some 100) (levelTwoWith (some 100)) := ⟨levelTwoTrace, by decide⟩
  have hr2 : Reachable (some 120) (levelTwoWith (some 120)) := ⟨levelTwoTrace, by decide⟩
  have h1 := high_score_storage (some 100) _ hr1
  have h2 := high_score_storage (some 120) _ hr2
  have e1 : (levelTwoWith (some 100)).score = 120 := by decide
  have e2 : (levelTwoWith (some 120)).score = 120 := by decide
  have e3 : (levelTwoWith (some 120)).storage = some 120 := by decide
  have h2b := h2.2.2.2.2.2.2 (by rw [e2, h2.2.2.1]; rfl)
  refine ⟨⟨hr1, e1, h1.2.2.1, by decide, ?_, ?_⟩, hr2, e2, h2.2.2.1, h2b.1.trans e3, h2b.2⟩
  · rw [h1.2.2.2.1, h1.2.2.1, e1]
    rfl
  · rw [h1.2.2.2.2.1, h1.2.2.1, e1]
    rfl

/-! ## The jump -/

theorem jumpPlayer_eq (inp : Input) (s : State) :
    jumpPlayer inp s =
      if inp.up && !s.upKeyDown && s.jumpEnabled then
        { s with playerVelY := -SPEED.JUMP, jumpEnabled := false, upKeyDown := true }
      else { s with upKeyDown := inp.up } := by
  unfold jumpPlayer
  cases hu : inp.up <;> cases hk : s.upKeyDown <;> cases hj : s.jumpEnabled <;> simp

/-- The state after a frame of a game that is not over. -/
theorem update_state (inp : Input) (s : State) (ho : s.gameIsOver = false) :
    (update inp s).state =
      unstick { jumpPlayer inp (movePlayer inp s) with jumpEnabled := inp.touchingDown } := by
  unfold update
  simp [ho]

theorem update_over (inp : Input) (s : State) (ho : s.gameIsOver = true) :
    (update inp s).state = s := by
  unfold update
  simp [ho]

theorem movePlayer_playerVelY (inp : Input) (s : State) :
    (movePlayer inp s).playerVelY = s.playerVelY ∨
      (movePlayer inp s).playerVelY = SPEED.GROUND_POUND ∨ (movePlayer inp s).playerVelY = 0 := by
  unfold movePlayer
  simp only [wait]
  split_ifs <;> simp

/-- The vertical velocity and the key flag after a frame of a game that is not over. -/
theorem update_jump (inp : Input) (s : State) (ho : s.gameIsOver = false) :
    (update inp s).state.playerVelY =
        (if inp.up && !s.upKeyDown && s.jumpEnabled then -SPEED.JUMP
         else (movePlayer inp s).playerVelY) ∧
      (update inp s).state.upKeyDown = inp.up := by
  obtain ⟨vx, vy, ts, hm⟩ := movePlayer_frame inp s
  have hk : (movePlayer inp s).upKeyDown = s.upKeyDown := by rw [hm]
  have hj : (movePlayer inp s).jumpEnabled = s.jumpEnabled := by rw [hm]
  obtain ⟨y, hu⟩ :=
    unstick_frame { jumpPlayer inp (movePlayer inp s) with jumpEnabled := inp.touchingDown }
  rw [update_state inp s ho, hu, jumpPlayer_eq, hk, hj]
  constructor
  · simp only
    split_ifs <;> rfl
  · simp only
    split_ifs with hc
    · simp only [Bool.and_eq_true] at hc
      exact hc.1.1.symm
    · rfl

theorem runCheat_between (cheat : Cheat) (s : State) :
    (runCheat cheat s).upKeyDown = s.upKeyDown ∧
      (s.gameIsOver = true → (runCheat cheat s).gameIsOver = true) := by
  cases cheat <;>
    simp [runCheat, wait, gameOver_eq, despawnEverything_eq, despawnPowerUps, debug, createBomb]

theorem fire_between (cb : Callback) (shift : Bool) (s : State) :
    (fire cb shift s).upKeyDown = s.upKeyDown ∧
      (s.gameIsOver = true → (fire cb shift s).gameIsOver = true) := by
  cases cb <;> simp only [fire, wait, gameOver_eq] <;>
    first
    | exact ⟨rfl, id⟩
    | exact ⟨trivial, id⟩
    | (split_ifs <;> first | exact ⟨rfl, id⟩ | exact ⟨rfl, fun _ => rfl⟩)

/-- Between two frames the key flag stays as it is, and a game that is over stays over. -/
theorem step_between {s s' : State} (ev : Event) (hi : Inv s) (hs : step ev s = some s')
    (hne : ∀ inp, ev ≠ .frame inp) :
    s'.upKeyDown = s.upKeyDown ∧ (s.gameIsOver = true → s'.gameIsOver = true) := by
  have hg := hi.groundPound
  cases ev with
  | frame inp => exact absurd rfl (hne inp)
  | physics y velX velY =>
    simp only [step] at hs
    split_ifs at hs
    simp only [Option.some.injEq] at hs
    subst hs
    exact ⟨rfl, id⟩
  | bombHit bomb down =>
    simp only [step] at hs
    split_ifs at hs
    simp only [Option.some.injEq] at hs
    subst hs
    cases hinv : s.invincible
    · cases ha : s.hasArmor
      · by_cases hl : 1 ≤ s.lives - 1
        · rw [bombCollide_hit bomb down s hg hinv ha hl]
          exact ⟨rfl, id⟩
        · rw [bombCollide_fatal bomb down s hg hinv ha hl, gameOver_eq]
          exact ⟨rfl, fun _ => rfl⟩
      · rw [bombCollide_armor bomb down s hg hinv ha]
        exact ⟨rfl, id⟩
    · rw [bombCollide_invincible bomb down s hg hinv]
      split_ifs <;> exact ⟨rfl, id⟩
  | starCollect star rolls =>
    simp only [step] at hs
    split_ifs at hs
    simp only [Option.some.injEq] at hs
    subst hs
    obtain ⟨l, st, b, p, he⟩ := starOverlap_frame star rolls s
    rw [he]
    exact ⟨rfl, id⟩
  | powerupCollect key =>
    simp only [step] at hs
    split_ifs at hs
    simp only [Option.some.injEq] at hs
    subst hs
    cases key <;> simp only [powerupOverlap, onCollect, wait] <;>
      first
      | exact ⟨rfl, id⟩
      | exact ⟨trivial, id⟩
      | (split_ifs <;> exact ⟨rfl, id⟩)
  | keycombo codes =>
    simp only [step] at hs
    split_ifs at hs
    simp only [Option.some.injEq] at hs
    subst hs
    rcases keycombomatch_cases codes s with he | ⟨cheat, he⟩
    · rw [he]
      exact ⟨rfl, id⟩
    · rw [he]
      exact runCheat_between cheat s
  | timer shift =>
    simp only [step] at hs
    cases he : earliest s.timers with
    | none => simp [he] at hs
    | some t =>
      simp only [he] at hs
      split_ifs at hs
      simp only [Option.some.injEq] at hs
      subst hs
      exact fire_between t.cb shift _
  | elapse ms =>
    simp only [step] at hs
    split_ifs at hs
    simp only [Option.some.injEq] at hs
    subst hs
    exact ⟨rfl, id⟩

theorem run_between {s s' : State} (evs : List Event) (hi : Inv s) (hs : run evs s = some s')
    (hne : ∀ ev ∈ evs, ∀ inp, ev ≠ .frame inp) :
    s'.upKeyDown = s.upKeyDown ∧ (s.gameIsOver = true → s'.gameIsOver = true) := by
  induction evs generalizing s with
  | nil =>
    simp only [run, Option.some.injEq] at hs
    subst hs
    exact ⟨rfl, id⟩
  | cons ev evs ih =>
    simp only [run] at hs
    cases he : step ev s with
    | none => simp [he] at hs
    | some s1 =>
      simp only [he] at hs
      have h1 := step_between ev hi he (hne ev (List.mem_cons_self _ _))
      have h2 := ih (inv_step ev hi he) hs (fun e hm => hne e (List.mem_cons_of_mem _ hm))
      exact ⟨h2.1.trans h1.1, fun ho => h2.2 (h1.2 ho)⟩

/-- C14, as stated, fails: after the Konami code the game is over; the up key is down,
`upKeyDown` is false and `jumpEnabled` is true, and the frame returns at once, leaving the
vertical velocity at 0. -/
theorem no_jump_when_game_is_over :
    run konamiStandingTrace (init none) = some (stateAfter konamiStandingTrace) ∧
      upKey.up = true ∧
      (stateAfter konamiStandingTrace).upKeyDown = false ∧
      (stateAfter konamiStandingTrace).jumpEnabled = true ∧
      (stateAfter konamiStandingTrace).gameIsOver = true ∧
      (stateAfter konamiStandingTrace).keyboardListening = true ∧
      (stateAfter konamiStandingTrace).playerVelY = 0 ∧
      (update upKey (stateAfter konamiStandingTrace)).state.playerVelY = 0 ∧
      (update upKey (stateAfter konamiStandingTrace)).state = stateAfter konamiStandingTrace := by
  refine ⟨by decide, by decide, by decide, by decide, by decide, by decide, by decide,
    by decide, by decide⟩

/-- C14, amended: holding the up key does not make the player jump repeatedly. In a game
that is not over a frame sets the vertical velocity to `-SPEED.JUMP = -330` iff the up key
is down, `upKeyDown` was false and `jumpEnabled` is true, and otherwise leaves it as the
movement block left it (unchanged, the ground-pound speed, or 0); in a game that is over a
frame changes nothing. After a frame with the up key held and any events other than frames,
the next frame with the up key held starts no jump, whatever `jumpEnabled` is. -/
theorem jump_needs_fresh_key_press (stored : Option Nat) (s : State) (inp : Input)
    (hr : Reachable stored s) :
    (s.gameIsOver = false →
        (update inp s).state.playerVelY =
          (if inp.up && !s.upKeyDown && s.jumpEnabled then -SPEED.JUMP
           else (movePlayer inp s).playerVelY)) ∧
      (s.gameIsOver = true → (update inp s).state = s) ∧
      ((movePlayer inp s).playerVelY = s.playerVelY ∨
        (movePlayer inp s).playerVelY = SPEED.GROUND_POUND ∨
        (movePlayer inp s).playerVelY = 0) ∧
      -SPEED.JUMP = -330 ∧
      (inp.up = true →
        ∀ (evs : List Event) (s2 : State) (inp2 : Input),
          (∀ ev ∈ evs, ∀ i, ev ≠ .frame i) → run evs (update inp s).state = some s2 →
          inp2.up = true →
          (s2.gameIsOver = true ∧ (update inp2 s2).state = s2) ∨
            (s2.gameIsOver = false ∧ s2.upKeyDown = true ∧
              (update inp2 s2).state.playerVelY = (movePlayer inp2 s2).playerVelY)) := by
  refine ⟨fun ho => (update_jump inp s ho).1, update_over inp s, movePlayer_playerVelY inp s,
    rfl, ?_⟩
  intro hup evs s2 inp2 hne hrun hup2
  have hstep : step (.frame inp) s = some (update inp s).state := rfl
  have hi1 : Inv (update inp s).state := reachable_inv (reachable_step _ hr hstep)
  have hb := run_between evs hi1 hrun hne
  cases ho2 : s2.gameIsOver
  · right
    have ho : s.gameIsOver = false := by
      cases ho : s.gameIsOver
      · rfl
      · rw [update_over inp s ho] at hb
        rw [hb.2 ho] at ho2
        cases ho2
    have hk : s2.upKeyDown = true := by
      rw [hb.1, (update_jump inp s ho).2, hup]
    refine ⟨rfl, hk, ?_⟩
    rw [(update_jump inp2 s2 ho2).1, hk, hup2]
    simp
  · left
    exact ⟨rfl, update_over inp2 s2 ho2⟩

/-- An instance: the player stands on a platform and the up key is pressed, which starts a
jump; the engine moves the player, and the next frame, the key still held and `jumpEnabled`
still set, leaves the velocity to the engine. -/
theorem jump_needs_fresh_key_press_witness :
    (Reachable none (stateAfter [.frame noKeys]) ∧
        (stateAfter [.frame noKeys]).gameIsOver = false ∧
        (stateAfter [.frame noKeys]).upKeyDown = false ∧
        (stateAfter [.frame noKeys]).jumpEnabled = true ∧ upKey.up = true) ∧
      (update upKey (stateAfter [.frame noKeys])).state.playerVelY = -330 ∧
      (run [.physics 375 0 (-325)] (update upKey (stateAfter [.frame noKeys])).state =
          some (stateAfter jumpTrace) ∧
        (stateAfter jumpTrace).jumpEnabled = true ∧ (stateAfter jumpTrace).playerVelY = -325) ∧
      (update upKey (stateAfter jumpTrace)).state.playerVelY = -325 := by
  have hr : Reachable none (stateAfter [.frame noKeys]) := ⟨[.frame noKeys], by decide⟩
  have h := jump_needs_fresh_key_press none (stateAfter [.frame noKeys]) upKey hr
  have hrun : run [.physics 375 0 (-325)] (update upKey (stateAfter [.frame noKeys])).state =
      some (stateAfter jumpTrace) := by
    decide
  have h1 := h.1 (by decide)
  have h2 := h.2.2.2.2 rfl [.physics 375 0 (-325)] (stateAfter jumpTrace) upKey (by simp) hrun rfl
  have ho : (stateAfter jumpTrace).gameIsOver = false := by decide
  have hm : (movePlayer upKey (stateAfter jumpTrace)).playerVelY = -325 := by decide
  refine ⟨⟨hr, by decide, by decide, by decide, rfl⟩, h1.trans (by decide),
    ⟨hrun, by decide, by decide⟩, ?_⟩
  rcases h2 with ⟨h3, -⟩ | ⟨-, -, h3⟩
  · rw [ho] at h3
    cases h3
  · exact h3.trans hm

/-! ## Pending callbacks -/

theorem earliest_mem {l : List Timer} {t : Timer} (h : earliest l = some t) : t ∈ l := by
  induction l generalizing t with
  | nil => simp [earliest] at h
  | cons x xs ih =>
    simp only [earliest] at h
    cases he : earliest xs with
    | none =>
      simp only [he, Option.some.injEq] at h
      subst h
      exact List.mem_cons_self _ _
    | some u =>
      simp only [he] at h
      split_ifs at h
      · simp only [Option.some.injEq] at h
        subst h
        exact List.mem_cons_of_mem _ (ih he)
      · simp only [Option.some.injEq] at h
        subst h
        exact List.mem_cons_self _ _

/-! ## The clock and the pending callbacks -/

theorem movePlayer_keeps (inp : Input) (s : State) (t : Timer) (ht : t ∈ s.timers) :
    t ∈ (movePlayer inp s).timers := by
  unfold movePlayer
  split_ifs <;> simp [wait, ht]

/-- A frame leaves the clock as it is and removes no pending callback. -/
theorem update_keeps (inp : Input) (s : State) :
    (update inp s).state.now = s.now ∧ ∀ t ∈ s.timers, t ∈ (update inp s).state.timers := by
  obtain ⟨vx, vy, u, j, y, ts, he⟩ := update_frame inp s
  refine ⟨by rw [he], ?_⟩
  intro t ht
  cases ho : s.gameIsOver
  · obtain ⟨vy2, j2, u2, hj⟩ := jumpPlayer_frame inp (movePlayer inp s)
    obtain ⟨y2, hu⟩ :=
      unstick_frame { jumpPlayer inp (movePlayer inp s) with jumpEnabled := inp.touchingDown }
    rw [update_state inp s ho, hu, hj]
    exact movePlayer_keeps inp s t ht
  · rw [update_over inp s ho]
    exact ht

theorem bombCollide_keeps (bomb : Nat) (down : Bool) (s : State)
    (hg : s.invincibleGroundPound = false) :
    (bombCollide bomb down s).now = s.now ∧
      ∀ t ∈ s.timers, t ∈ (bombCollide bomb down s).timers := by
  cases hinv : s.invincible
  · cases ha : s.hasArmor
    · by_cases hl : 1 ≤ s.lives - 1
      · rw [bombCollide_hit bomb down s hg hinv ha hl]
        exact ⟨rfl, fun t ht => by simp [wait, ht]⟩
      · rw [bombCollide_fatal bomb down s hg hinv ha hl, gameOver_eq]
        exact ⟨rfl, fun t ht => ht⟩
    · rw [bombCollide_armor bomb down s hg hinv ha]
      exact ⟨rfl, fun t ht => by simp [wait, ht]⟩
  · rw [bombCollide_invincible bomb down s hg hinv]
    split_ifs <;> exact ⟨rfl, fun t ht => ht⟩

theorem powerupOverlap_keeps (key : PowerupKey) (s : State) :
    (powerupOverlap key s).now = s.now ∧ ∀ t ∈ s.timers, t ∈ (powerupOverlap key s).timers := by
  cases key <;> simp only [powerupOverlap, onCollect, wait] <;>
    first
    | exact ⟨trivial, fun t ht => by simp [ht]⟩
    | (split_ifs <;> exact ⟨rfl, fun t ht => by simp [ht]⟩)

theorem runCheat_keeps (cheat : Cheat) (s : State) :
    (runCheat cheat s).now = s.now ∧ ∀ t ∈ s.timers, t ∈ (runCheat cheat s).timers := by
  cases cheat <;>
    simp only [runCheat, wait, despawnEverything_eq, despawnPowerUps, debug, gameOver_eq,
      createBomb] <;>
    first
    | exact ⟨rfl, fun t ht => by simp [ht]⟩
    | exact ⟨trivial, fun t ht => by simp [ht]⟩

theorem fire_keeps (cb : Callback) (shift : Bool) (s : State) :
    (fire cb shift s).now = s.now ∧ ∀ t ∈ s.timers, t ∈ (fire cb shift s).timers := by
  cases cb <;> simp only [fire, wait, gameOver_eq] <;>
    first
    | exact ⟨rfl, fun t ht => ht⟩
    | exact ⟨trivial, fun t ht => ht⟩
    | (split_ifs <;> first
        | exact ⟨rfl, fun t ht => ht⟩
        | exact ⟨rfl, fun t ht => by simp [ht]⟩)

/-- Every event leaves the pending callbacks in place, except the callback that it runs;
the clock moves forward, and not past a pending callback. -/
theorem step_clock {s s' : State} (ev : Event) (hi : Inv s) (hs : step ev s = some s') :
    s.now ≤ s'.now ∧ (s'.now = s.now ∨ ∀ t ∈ s.timers, s'.now ≤ t.due) ∧
      ∀ t ∈ s.timers, t ∈ s'.timers ∨ ∃ shift, ev = .timer shift ∧ earliest s.timers = some t := by
  have hg := hi.groundPound
  cases ev with
  | frame inp =>
    simp only [step, Option.some.injEq] at hs
    subst hs
    obtain ⟨h1, h2⟩ := update_keeps inp s
    exact ⟨le_of_eq h1.symm, Or.inl h1, fun t ht => Or.inl (h2 t ht)⟩
  | physics y velX velY =>
    simp only [step] at hs
    split_ifs at hs
    simp only [Option.some.injEq] at hs
    subst hs
    exact ⟨le_refl _, Or.inl rfl, fun t ht => Or.inl ht⟩
  | bombHit bomb down =>
    simp only [step] at hs
    split_ifs at hs
    simp only [Option.some.injEq] at hs
    subst hs
    obtain ⟨h1, h2⟩ := bombCollide_keeps bomb down s hg
    exact ⟨le_of_eq h1.symm, Or.inl h1, fun t ht => Or.inl (h2 t ht)⟩
  | starCollect star rolls =>
    simp only [step] at hs
    split_ifs at hs
    simp only [Option.some.injEq] at hs
    subst hs
    obtain ⟨l, st, b, p, he⟩ := starOverlap_frame star rolls s
    rw [he]
    exact ⟨le_refl _, Or.inl rfl, fun t ht => Or.inl ht⟩
  | powerupCollect key =>
    simp only [step] at hs
    split_ifs at hs
    simp only [Option.some.injEq] at hs
    subst hs
    obtain ⟨h1, h2⟩ := powerupOverlap_keeps key s
    exact ⟨le_of_eq h1.symm, Or.inl h1, fun t ht => Or.inl (h2 t ht)⟩
  | keycombo codes =>
    simp only [step] at hs
    split_ifs at hs
    simp only [Option.some.injEq] at hs
    subst hs
    rcases keycombomatch_cases codes s with he | ⟨cheat, he⟩
    · rw [he]
      exact ⟨le_refl _, Or.inl rfl, fun t ht => Or.inl ht⟩
    · rw [he]
      obtain ⟨h1, h2⟩ := runCheat_keeps cheat s
      exact ⟨le_of_eq h1.symm, Or.inl h1, fun t ht => Or.inl (h2 t ht)⟩
  | timer shift =>
    simp only [step] at hs
    cases he : earliest s.timers with
    | none => simp [he] at hs
    | some u =>
      simp only [he] at hs
      split_ifs at hs
      simp only [Option.some.injEq] at hs
      subst hs
      obtain ⟨h1, h2⟩ := fire_keeps u.cb shift { s with timers := s.timers.erase u }
      refine ⟨le_of_eq h1.symm, Or.inl h1, fun t ht => ?_⟩
      by_cases htu : t = u
      · subst htu
        exact Or.inr ⟨shift, rfl, rfl⟩
      · exact Or.inl (h2 t ((List.mem_erase_of_ne htu).mpr ht))
  | elapse ms =>
    simp only [step] at hs
    split_ifs at hs with hall
    simp only [Option.some.injEq] at hs
    subst hs
    refine ⟨Nat.le_add_right _ _, Or.inr ?_, fun t ht => Or.inl ht⟩
    intro t ht
    simpa using (List.all_eq_true.mp hall) t ht

/-- What the run of the callback `own` is, when it is the event. -/
theorem firesHead_step {own : Timer} {rest : List Timer} {ev : Event} {s s' : State}
    (hf : firesHead (own :: rest) ev s = true) (hs : step ev s = some s') :
    ∃ shift, own ∈ s.timers ∧ own.due ≤ s.now ∧
      s' = fire own.cb shift { s with timers := s.timers.erase own } := by
  cases ev with
  | timer shift =>
    simp only [step] at hs
    cases he : earliest s.timers with
    | none => simp [he] at hs
    | some u =>
      simp only [firesHead, he, decide_eq_true_eq] at hf
      subst hf
      simp only [he] at hs
      split_ifs at hs with hdue
      simp only [Option.some.injEq] at hs
      exact ⟨shift, earliest_mem he, hdue, hs.symm⟩
  | frame inp => simp [firesHead] at hf
  | physics y velX velY => simp [firesHead] at hf
  | bombHit bomb down => simp [firesHead] at hf
  | starCollect star rolls => simp [firesHead] at hf
  | powerupCollect key => simp [firesHead] at hf
  | keycombo codes => simp [firesHead] at hf
  | elapse ms => simp [firesHead] at hf

/-- While the callback `own` is pending, an event that does not run it leaves it pending and
does not move the clock past it. -/
theorem pending_kept {own : Timer} {rest : List Timer} {ev : Event} {s s' : State}
    (hi : Inv s) (hf : firesHead (own :: rest) ev s = false) (hs : step ev s = some s')
    (hm : own ∈ s.timers) (hn : s.now ≤ own.due) :
    own ∈ s'.timers ∧ s'.now ≤ own.due ∧ s.now ≤ s'.now := by
  obtain ⟨h1, h2, h3⟩ := step_clock ev hi hs
  refine ⟨?_, ?_, h1⟩
  · rcases h3 own hm with h | ⟨shift, hev, he⟩
    · exact h
    · subst hev
      simp [firesHead, he] at hf
  · rcases h2 with h | h
    · rw [h]; exact hn
    · exact h own hm

/-- An invariant of the events that leave `invincible` alone and of the runs of the
callbacks of the hit holds along an undisturbed run. -/
theorem undisturbed_run {P : List Timer → State → Prop}
    (hP : ∀ (owns : List Timer) (ev : Event) (s s' : State), P owns s → step ev s = some s' →
      (firesHead owns ev s = true → P owns.tail s') ∧
      (firesHead owns ev s = false → s'.invincible = s.invincible → P owns s'))
    (evs : List Event) {owns : List Timer} {s s' : State} (h : P owns s)
    (hu : undisturbed owns evs s = true) (hs : run evs s = some s') :
    P (pendingOwn owns evs s) s' := by
  induction evs generalizing s owns with
  | nil =>
    simp only [run, Option.some.injEq] at hs
    subst hs
    exact h
  | cons ev evs ih =>
    simp only [run] at hs
    cases he : step ev s with
    | none => simp [he] at hs
    | some s1 =>
      simp only [he] at hs
      simp only [undisturbed, he] at hu
      simp only [pendingOwn, he]
      cases hf : firesHead owns ev s
      · simp only [hf, Bool.false_eq_true, if_false, Bool.and_eq_true, beq_iff_eq] at hu ⊢
        exact ih ((hP owns ev s s1 h he).2 hf hu.1) hu.2 hs
      · simp only [hf, if_true] at hu ⊢
        exact ih ((hP owns ev s s1 h he).1 hf) hu hs

/-! ## The phases of the invincibility after a hit -/

theorem firesHead_nil (ev : Event) (s : State) : firesHead [] ev s = false := by
  unfold firesHead
  split
  · rename_i h
    cases h
  · rfl

/-- Once `bombGroundPounded` is set, it stays set. -/
theorem pounded_step {stored : Option Nat} {s s' : State} (ev : Event)
    (hr : Reachable stored s) (hb : s.bombGroundPounded = true) (hs : step ev s = some s') :
    s'.bombGroundPounded = true := by
  have hst := reachable_steady hr
  exact (steady_step ev (reachable_inv hr)
    (⟨hst.highScore, hst.level, hst.stars, fun _ => hb⟩ :
      Steady (init stored).highScore true s) hs).pounded rfl

theorem hitPhase_step (stored : Option Nat) (t : Nat) (owns : List Timer) (ev : Event)
    (s s' : State) (h : HitPhase stored t owns s) (hs : step ev s = some s') :
    (firesHead owns ev s = true → HitPhase stored t owns.tail s') ∧
      (firesHead owns ev s = false → s'.invincible = s.invincible →
        HitPhase stored t owns s') := by
  obtain ⟨hr, h⟩ := h
  have hr' : Reachable stored s' := reachable_step ev hr hs
  have hi := reachable_inv hr
  rcases h with ⟨ho, hinv, hn, hm⟩ | ⟨ho, hinv, hn⟩
  · subst ho
    refine ⟨fun hf => ?_, fun hf he => ?_⟩
    · obtain ⟨shift, -, hd, hs'⟩ := firesHead_step hf hs
      refine ⟨hr', Or.inr ⟨rfl, ?_, ?_⟩⟩
      · rw [hs']
        rfl
      · rw [hs']
        exact hd
    · obtain ⟨h1, h2, -⟩ := pending_kept hi hf hs hm hn
      exact ⟨hr', Or.inl ⟨rfl, he.trans hinv, h2, h1⟩⟩
  · subst ho
    refine ⟨fun hf => ?_, fun _ he => ?_⟩
    · rw [firesHead_nil] at hf
      cases hf
    · exact ⟨hr', Or.inr ⟨rfl, he.trans hinv, hn.trans (step_clock ev hi hs).1⟩⟩

theorem poundPhase_step (stored : Option Nat) (t : Nat) (owns : List Timer) (ev : Event)
    (s s' : State) (h : PoundPhase stored t owns s) (hs : step ev s = some s') :
    (firesHead owns ev s = true → PoundPhase stored t owns.tail s') ∧
      (firesHead owns ev s = false → s'.invincible = s.invincible →
        PoundPhase stored t owns s') := by
  obtain ⟨hr, h⟩ := h
  have hr' : Reachable stored s' := reachable_step ev hr hs
  have hi := reachable_inv hr
  rcases h with ⟨ho, hinv, hn, hm⟩ | ⟨ho, hinv, hb, hlo, hn, hm⟩ | ⟨ho, hinv, hb, hn⟩
  · subst ho
    refine ⟨fun hf => ?_, fun hf he => ?_⟩
    · obtain ⟨shift, -, hd, hs'⟩ := firesHead_step hf hs
      have hd' : t + TIME.MERCY / 2 ≤ s.now := hd
      have hnow : s.now = t + TIME.MERCY / 2 := le_antisymm hn hd'
      refine ⟨hr', Or.inr (Or.inl ⟨rfl, ?_, ?_, ?_, ?_, ?_⟩)⟩
      · rw [hs']
        rfl
      · rw [hs']
        rfl
      · rw [hs']
        exact hd'
      · rw [hs']
        show s.now ≤ _
        omega
      · rw [hs']
        show (⟨t + TIME.MERCY / 2 + TIME.MERCY, .mercyEnd⟩ : Timer) ∈
          s.timers.erase ⟨t + TIME.MERCY / 2, .mercy true⟩ ++ [⟨s.now + TIME.MERCY, .mercyEnd⟩]
        rw [hnow]
        simp
    · obtain ⟨h1, h2, -⟩ := pending_kept hi hf hs hm hn
      exact ⟨hr', Or.inl ⟨rfl, he.trans hinv, h2, h1⟩⟩
  · subst ho
    have hb' := pounded_step ev hr hb hs
    refine ⟨fun hf => ?_, fun hf he => ?_⟩
    · obtain ⟨shift, -, hd, hs'⟩ := firesHead_step hf hs
      refine ⟨hr', Or.inr (Or.inr ⟨rfl, ?_, hb', ?_⟩)⟩
      · rw [hs']
        rfl
      · rw [hs']
        exact hd
    · obtain ⟨h1, h2, h3⟩ := pending_kept hi hf hs hm hn
      exact ⟨hr', Or.inr (Or.inl ⟨rfl, he.trans hinv, hb', hlo.trans h3, h2, h1⟩)⟩
  · subst ho
    refine ⟨fun hf => ?_, fun _ he => ?_⟩
    · rw [firesHead_nil] at hf
      cases hf
    · exact ⟨hr', Or.inr (Or.inr ⟨rfl, he.trans hinv, pounded_step ev hr hb hs,
        hn.trans (step_clock ev hi hs).1⟩)⟩

/-! ## The invincibility after a hit -/

/-- C15: the duration of the invincibility after a non-fatal life-losing hit at time `t`,
for every run of events of any kind in which no other event changes `invincible`: each
event of the run, apart from the runs of the callbacks of the hit, leaves `invincible` as
it found it (`undisturbed`). If the hit is not a first ground-pound hit, then as long as
its callback due at `t + 3000` has not run, `invincible` is true, the callback is pending
and the time is at most `t + 3000`; once it has run, `invincible` is false. If the hit is
made while ground-pounding with `bombGroundPounded` false, then `invincible` is true until
the callback due at `t + 1500` has run, stays true with `bombGroundPounded` set until the
second callback, due at `t + 4500`, has run, and is false from then on. Once
`bombGroundPounded` is set it stays set, and every later life-losing hit, ground-pounding
or not, schedules its single callback 3000 ms ahead. -/
theorem mercy_duration (stored : Option Nat) (s s1 : State) (bomb : Nat) (down : Bool)
    (hr : Reachable stored s) (hi : s.invincible = false) (ha : s.hasArmor = false)
    (hl : 1 ≤ s.lives - 1) (hs : step (.bombHit bomb down) s = some s1) :
    ((down && !s.jumpEnabled && !s.invinciblePowerup && !s.bombGroundPounded) = false →
        s1.invincible = true ∧
        ∀ (evs : List Event) (s2 : State),
          undisturbed [⟨s.now + TIME.MERCY, .mercy false⟩] evs s1 = true →
          run evs s1 = some s2 →
          (pendingOwn [⟨s.now + TIME.MERCY, .mercy false⟩] evs s1 =
                [⟨s.now + TIME.MERCY, .mercy false⟩] ∧
              s2.invincible = true ∧ s2.now ≤ s.now + TIME.MERCY ∧
              (⟨s.now + TIME.MERCY, .mercy false⟩ : Timer) ∈ s2.timers) ∨
            (pendingOwn [⟨s.now + TIME.MERCY, .mercy false⟩] evs s1 = [] ∧
              s2.invincible = false ∧ s.now + TIME.MERCY ≤ s2.now)) ∧
      ((down && !s.jumpEnabled && !s.invinciblePowerup && !s.bombGroundPounded) = true →
        s1.invincible = true ∧
        ∀ (evs : List Event) (s2 : State),
          undisturbed [⟨s.now + TIME.MERCY / 2, .mercy true⟩,
            ⟨s.now + TIME.MERCY / 2 + TIME.MERCY, .mercyEnd⟩] evs s1 = true →
          run evs s1 = some s2 →
          (pendingOwn [⟨s.now + TIME.MERCY / 2, .mercy true⟩,
                ⟨s.now + TIME.MERCY / 2 + TIME.MERCY, .mercyEnd⟩] evs s1 =
                [⟨s.now + TIME.MERCY / 2, .mercy true⟩,
                  ⟨s.now + TIME.MERCY / 2 + TIME.MERCY, .mercyEnd⟩] ∧
              s2.invincible = true ∧ s2.now ≤ s.now + TIME.MERCY / 2 ∧
              (⟨s.now + TIME.MERCY / 2, .mercy true⟩ : Timer) ∈ s2.timers) ∨
            (pendingOwn [⟨s.now + TIME.MERCY / 2, .mercy true⟩,
                ⟨s.now + TIME.MERCY / 2 + TIME.MERCY, .mercyEnd⟩] evs s1 =
                [⟨s.now + TIME.MERCY / 2 + TIME.MERCY, .mercyEnd⟩] ∧
              s2.invincible = true ∧ s2.bombGroundPounded = true ∧
              s.now + TIME.MERCY / 2 ≤ s2.now ∧ s2.now ≤ s.now + TIME.MERCY / 2 + TIME.MERCY ∧
              (⟨s.now + TIME.MERCY / 2 + TIME.MERCY, .mercyEnd⟩ : Timer) ∈ s2.timers) ∨
            (pendingOwn [⟨s.now + TIME.MERCY / 2, .mercy true⟩,
                ⟨s.now + TIME.MERCY / 2 + TIME.MERCY, .mercyEnd⟩] evs s1 = [] ∧
              s2.invincible = false ∧ s2.bombGroundPounded = true ∧
              s.now + TIME.MERCY / 2 + TIME.MERCY ≤ s2.now)) ∧
      TIME.MERCY = 3000 ∧ TIME.MERCY / 2 + TIME.MERCY = 4500 ∧
      (∀ (evs : List Event) (x : State), run evs s1 = some x → x.bombGroundPounded = true →
        ∀ (evs2 : List Event) (z z1 : State) (bomb2 : Nat) (down2 : Bool),
          run evs2 x = some z → z.invincible = false → z.hasArmor = false →
          1 ≤ z.lives - 1 → step (.bombHit bomb2 down2) z = some z1 →
          z.bombGroundPounded = true ∧ z1.invincible = true ∧
            z1.timers = z.timers ++ [⟨z.now + TIME.MERCY, .mercy false⟩]) := by
  obtain ⟨-, -, he⟩ := step_bombHit hs
  have hg := (reachable_inv hr).groundPound
  have hr1 : Reachable stored s1 := reachable_step _ hr hs
  rw [bombCollide_hit bomb down s hg hi ha hl] at he
  refine ⟨?_, ?_, rfl, rfl, ?_⟩
  · intro ho
    rw [ho] at he
    have h1 : HitPhase stored s.now [⟨s.now + TIME.MERCY, .mercy false⟩] s1 := by
      refine ⟨hr1, Or.inl ⟨rfl, ?_, ?_, ?_⟩⟩
      · rw [he]
        rfl
      · rw [he]
        show s.now ≤ _
        omega
      · rw [he]
        show (⟨s.now + TIME.MERCY, .mercy false⟩ : Timer) ∈
          s.timers ++ [⟨s.now + TIME.MERCY / 1, .mercy false⟩]
        rw [Nat.div_one]
        simp
    refine ⟨by rw [he]; rfl, fun evs s2 hu hrun => ?_⟩
    obtain ⟨-, h⟩ := undisturbed_run (hitPhase_step stored s.now) evs h1 hu hrun
    exact h
  · intro ho
    rw [ho] at he
    have h1 : PoundPhase stored s.now [⟨s.now + TIME.MERCY / 2, .mercy true⟩,
        ⟨s.now + TIME.MERCY / 2 + TIME.MERCY, .mercyEnd⟩] s1 := by
      refine ⟨hr1, Or.inl ⟨rfl, ?_, ?_, ?_⟩⟩
      · rw [he]
        rfl
      · rw [he]
        show s.now ≤ _
        omega
      · rw [he]
        show (⟨s.now + TIME.MERCY / 2, .mercy true⟩ : Timer) ∈
          s.timers ++ [⟨s.now + TIME.MERCY / 2, .mercy true⟩]
        simp
    refine ⟨by rw [he]; rfl, fun evs s2 hu hrun => ?_⟩
    obtain ⟨-, h⟩ := undisturbed_run (poundPhase_step stored s.now) evs h1 hu hrun
    exact h
  · intro evs x hrunx hbx evs2 z z1 bomb2 down2 hrunz hiz haz hlz hsz
    have hrx : Reachable stored x := reachable_run evs hr1 hrunx
    have hstx := reachable_steady hrx
    have hstz := steady_run evs2 (reachable_inv hrx)
      (⟨hstx.highScore, hstx.level, hstx.stars, fun _ => hbx⟩ :
        Steady (init stored).highScore true x) hrunz
    have hbz : z.bombGroundPounded = true := hstz.pounded rfl
    have hrz : Reachable stored z := reachable_run evs2 hrx hrunz
    obtain ⟨-, -, hez⟩ := step_bombHit hsz
    rw [bombCollide_hit bomb2 down2 z (reachable_inv hrz).groundPound hiz haz hlz] at hez
    subst hez
    refine ⟨hbz, rfl, ?_⟩
    simp [wait, hbz]

/-- An instance: a first ground-pound hit at time 0 after level 1, followed by a frame, two
more collisions with the bomb, a cheat code that gives five lives and the callbacks that
come due. None of these changes `invincible`. At time 4500, before the second callback of
the hit runs, the player is still invincible and `bombGroundPounded` is set; the callback
then ends the invincibility. -/
theorem mercy_duration_witness :
    (Reachable none (stateAfter levelTwoTrace) ∧
        (stateAfter levelTwoTrace).invincible = false ∧
        (stateAfter levelTwoTrace).hasArmor = false ∧
        (stateAfter levelTwoTrace).lives = 5 ∧ (stateAfter levelTwoTrace).now = 0 ∧
        (stateAfter levelTwoTrace).bombGroundPounded = false ∧
        step (.bombHit 0 true) (stateAfter levelTwoTrace) = some (stateAfter ouchHitTrace)) ∧
      (undisturbed [⟨1500, .mercy true⟩, ⟨4500, .mercyEnd⟩] (ouchBusy ++ [.timer false])
          (stateAfter ouchHitTrace) = true ∧
        run ouchBusy (stateAfter ouchHitTrace) = some (stateAfter (ouchHitTrace ++ ouchBusy)) ∧
        pendingOwn [⟨1500, .mercy true⟩, ⟨4500, .mercyEnd⟩] ouchBusy
          (stateAfter ouchHitTrace) = [⟨4500, .mercyEnd⟩] ∧
        pendingOwn [⟨1500, .mercy true⟩, ⟨4500, .mercyEnd⟩] (ouchBusy ++ [.timer false])
          (stateAfter ouchHitTrace) = [] ∧
        (stateAfter (ouchHitTrace ++ ouchBusy)).now = 4500 ∧
        (stateAfter (ouchHitTrace ++ ouchBusy)).lives = 9) ∧
      ((stateAfter (ouchHitTrace ++ ouchBusy)).invincible = true ∧
        (stateAfter (ouchHitTrace ++ ouchBusy)).bombGroundPounded = true) ∧
      (stateAfter (ouchHitTrace ++ ouchBusy ++ [.timer false])).invincible = false := by
  have hr : Reachable none (stateAfter levelTwoTrace) := ⟨levelTwoTrace, by decide⟩
  have hs : step (.bombHit 0 true) (stateAfter levelTwoTrace) =
      some (stateAfter ouchHitTrace) := by
    decide
  have h := mercy_duration none (stateAfter levelTwoTrace) (stateAfter ouchHitTrace) 0 true hr
    (by decide) (by decide) (by decide) hs
  have hn0 : (stateAfter levelTwoTrace).now = 0 := by decide
  have hu1 : undisturbed [⟨1500, .mercy true⟩, ⟨4500, .mercyEnd⟩] ouchBusy
      (stateAfter ouchHitTrace) = true := by
    decide
  have hu2 : undisturbed [⟨1500, .mercy true⟩, ⟨4500, .mercyEnd⟩] (ouchBusy ++ [.timer false])
      (stateAfter ouchHitTrace) = true := by
    decide
  have hrun : run ouchBusy (stateAfter ouchHitTrace) =
      some (stateAfter (ouchHitTrace ++ ouchBusy)) := by
    decide
  have hrun2 : run (ouchBusy ++ [.timer false]) (stateAfter ouchHitTrace) =
      some (stateAfter (ouchHitTrace ++ ouchBusy ++ [.timer false])) := by
    decide
  have hp1 : pendingOwn [⟨1500, .mercy true⟩, ⟨4500, .mercyEnd⟩] ouchBusy
      (stateAfter ouchHitTrace) = [⟨4500, .mercyEnd⟩] := by
    decide
  have hp2 : pendingOwn [⟨1500, .mercy true⟩, ⟨4500, .mercyEnd⟩] (ouchBusy ++ [.timer false])
      (stateAfter ouchHitTrace) = [] := by
    decide
  have h2 := (h.2.1 (by decide)).2 ouchBusy _ (by rw [hn0]; exact hu1) hrun
  have h3 := (h.2.1 (by decide)).2 (ouchBusy ++ [.timer false]) _ (by rw [hn0]; exact hu2) hrun2
  rw [hn0] at h2 h3
  refine ⟨⟨hr, by decide, by decide, by decide, hn0, by decide, hs⟩,
    ⟨hu2, hrun, hp1, hp2, by decide, by decide⟩, ?_, ?_⟩
  · rcases h2 with ⟨hp, -⟩ | ⟨-, hi, hb, -⟩ | ⟨hp, -⟩
    · rw [show pendingOwn [⟨0 + TIME.MERCY / 2, .mercy true⟩,
          ⟨0 + TIME.MERCY / 2 + TIME.MERCY, .mercyEnd⟩] ouchBusy (stateAfter ouchHitTrace) =
          [⟨4500, .mercyEnd⟩] from hp1] at hp
      cases hp
    · exact ⟨hi, hb⟩
    · rw [show pendingOwn [⟨0 + TIME.MERCY / 2, .mercy true⟩,
          ⟨0 + TIME.MERCY / 2 + TIME.MERCY, .mercyEnd⟩] ouchBusy (stateAfter ouchHitTrace) =
          [⟨4500, .mercyEnd⟩] from hp1] at hp
      cases hp
  · rcases h3 with ⟨hp, -⟩ | ⟨hp, -⟩ | ⟨-, hi, -⟩
    · rw [show pendingOwn [⟨0 + TIME.MERCY / 2, .mercy true⟩,
          ⟨0 + TIME.MERCY / 2 + TIME.MERCY, .mercyEnd⟩] (ouchBusy ++ [.timer false])
          (stateAfter ouchHitTrace) = [] from hp2] at hp
      cases hp
    · rw [show pendingOwn [⟨0 + TIME.MERCY / 2, .mercy true⟩,
          ⟨0 + TIME.MERCY / 2 + TIME.MERCY, .mercyEnd⟩] (ouchBusy ++ [.timer false])
          (stateAfter ouchHitTrace) = [] from hp2] at hp
      cases hp
    · exact hi

/-! ## Keys of key codes -/

theorem intercalate_go_data (acc : String) (l : List String) :
    (String.intercalate.go acc "," l).data = acc.data ++ sepTail (l.map String.data) := by
  induction l generalizing acc with
  | nil => simp [String.intercalate.go, sepTail]
  | cons a as ih =>
    rw [String.intercalate.go, ih]
    simp [sepTail]

theorem joinCodes_data (codes : List Nat) :
    (joinCodes codes).data = sepJoin (codes.map (fun n => (toString n).data)) := by
  cases codes with
  | nil => rfl
  | cons n ns =>
    simp only [joinCodes, List.map_cons, String.intercalate, intercalate_go_data, sepJoin,
      List.map_map]
    rfl

theorem splitAux_piece (p rest cur : List Char) (hp : ∀ c ∈ p, c ≠ ',') :
    splitAux (p ++ rest) cur = splitAux rest (p.reverse ++ cur) := by
  induction p generalizing cur with
  | nil => rfl
  | cons c cs ih =>
    have hc : c ≠ ',' := hp c (List.mem_cons_self _ _)
    have h := ih (c :: cur) (fun x hx => hp x (List.mem_cons_of_mem _ hx))
    simp only [List.cons_append, splitAux, hc, if_false]
    simpa using h

theorem splitAux_sepTail (ps : List (List Char)) (cur : List Char)
    (hp : ∀ p ∈ ps, ∀ c ∈ p, c ≠ ',') :
    splitAux (sepTail ps) cur = String.mk cur.reverse :: ps.map String.mk := by
  induction ps generalizing cur with
  | nil => rfl
  | cons p ps ih =>
    simp only [sepTail, splitAux, if_true]
    rw [splitAux_piece p _ [] (hp p (List.mem_cons_self _ _)),
      ih _ (fun q hq => hp q (List.mem_cons_of_mem _ hq))]
    simp

theorem splitAux_sepJoin (p : List Char) (ps : List (List Char))
    (hp : ∀ q ∈ p :: ps, ∀ c ∈ q, c ≠ ',') :
    splitAux (sepJoin (p :: ps)) [] = (p :: ps).map String.mk := by
  simp only [sepJoin]
  rw [splitAux_piece p _ [] (hp p (List.mem_cons_self _ _)),
    splitAux_sepTail ps _ (fun q hq => hp q (List.mem_cons_of_mem _ hq))]
  simp

theorem sepEach_append (l : List (List Char)) (x : List Char) :
    sepEach l ++ x = sepJoin (l ++ [x]) := by
  induction l with
  | nil => simp [sepEach, sepJoin, sepTail]
  | cons y ys ih =>
    cases ys with
    | nil => simp [sepEach, sepJoin, sepTail]
    | cons z zs =>
      simp only [sepEach, sepJoin, sepTail, List.cons_append, List.append_assoc] at ih ⊢
      rw [ih]

theorem sepEach_snoc (l : List (List Char)) (x : List Char) :
    sepEach (l ++ [x]) = sepEach l ++ (x ++ [',']) := by
  induction l with
  | nil => simp [sepEach]
  | cons y ys ih => simp [sepEach, ih]

theorem codePieces_length (str : String) : (codePieces str).length = str.length := by
  unfold codePieces
  rw [List.length_map]
  rfl

/-- The notation of the key code that the loop of `keyCodes` reads at index `k`. -/
theorem codePieces_getElem (str : String) (k : Nat) (hk : k < (codePieces str).length) :
    (toString ((str.data.map Char.toUpper).getD k (Char.ofNat 0)).toNat).data =
      (codePieces str)[k] := by
  have hk2 : k < str.data.length := by simpa [codePieces] using hk
  simp [codePieces, List.getD_eq_getElem?_getD, List.getElem?_eq_getElem hk2]

/-- The loop of `keyCodes` before its last round: every code is followed by a comma. -/
theorem keyCodes_prefix (str : String) (k : Nat) (hk : k < str.length) :
    ((List.range k).foldl
      (fun result i =>
        result ++ (toString ((str.data.map Char.toUpper).getD i (Char.ofNat 0)).toNat
          ++ (if i != str.length - 1 then "," else "")))
      "").data = sepEach ((codePieces str).take k) := by
  induction k with
  | zero => rfl
  | succ k ih =>
    have hk1 : k < (codePieces str).length := by rw [codePieces_length]; omega
    have hne : (k != str.length - 1) = true := by
      simp only [bne_iff_ne, ne_eq]
      omega
    rw [List.range_succ, List.foldl_append, List.foldl_cons, List.foldl_nil,
      String.data_append, ih (by omega), String.data_append, codePieces_getElem str k hk1, hne,
      List.take_succ, List.getElem?_eq_getElem hk1]
    simp only [if_true, Option.toList_some, sepEach_snoc]

/-- The key that `keyCodes` builds: the notations of the codes with a comma between two. -/
theorem keyCodes_data (str : String) (hne : str.length ≠ 0) :
    (keyCodes str).data = sepJoin (codePieces str) := by
  obtain ⟨n, hn⟩ : ∃ n, str.length = n + 1 := ⟨str.length - 1, by omega⟩
  have hlen := codePieces_length str
  have hk1 : n < (codePieces str).length := by rw [hlen]; omega
  have hp := keyCodes_prefix str n (by omega)
  have hlast : (n != n + 1 - 1) = false := by simp
  have happ : (codePieces str).take n ++ [(codePieces str)[n]] = codePieces str := by
    have h1 := (List.take_succ : List.take (n + 1) (codePieces str) = _)
    rw [List.getElem?_eq_getElem hk1] at h1
    simp only [Option.toList_some] at h1
    rw [← h1, ← hn, ← hlen, List.take_length]
  unfold keyCodes
  simp only
  rw [hn] at hp ⊢
  rw [List.range_succ, List.foldl_append, List.foldl_cons, List.foldl_nil,
    String.data_append, hp, String.data_append, codePieces_getElem str n hk1, hlast]
  simp only [Bool.false_eq_true, if_false]
  rw [List.append_nil, sepEach_append, happ]

/-- The code of the upper-cased ASCII letter lies between 65 and 90. -/
theorem letter_code (c : Char) (h : c.isAlpha = true) :
    65 ≤ c.toUpper.toNat ∧ c.toUpper.toNat ≤ 90 := by
  have hb : (65 ≤ c.toNat ∧ c.toNat ≤ 90) ∨ (97 ≤ c.toNat ∧ c.toNat ≤ 122) := by
    simp only [Char.isAlpha, Char.isUpper, Char.isLower, Bool.or_eq_true, Bool.and_eq_true,
      decide_eq_true_eq] at h
    rcases h with ⟨h1, h2⟩ | ⟨h1, h2⟩
    · exact Or.inl ⟨h1, h2⟩
    · exact Or.inr ⟨h1, h2⟩
  have hc : c = Char.ofNat c.toNat := (Char.ofNat_toNat c).symm
  generalize c.toNat = n at hb hc
  subst hc
  rcases hb with ⟨h1, h2⟩ | ⟨h1, h2⟩ <;> interval_cases n <;> decide

/-- The notation of a code between 65 and 90 has no comma, and `parseInt` reads it back. -/
theorem code_digits (n : Nat) (h1 : 65 ≤ n) (h2 : n ≤ 90) :
    (∀ x ∈ (toString n).data, x ≠ ',') ∧ parseInt (toString n) = some n ∧
      (toString n).data ≠ [] := by
  interval_cases n <;> decide

theorem enter_digits :
    (∀ x ∈ (toString 13).data, x ≠ ',') ∧ parseInt (toString 13) = some 13 ∧
      (toString 13).data ≠ [] := by
  decide

theorem codePieces_eq (str : String) :
    codePieces str = (upperCodes str).map (fun n => (toString n).data) := by
  simp [codePieces, upperCodes, List.map_map, Function.comp_def]

/-- The key that `keyCodes` builds is the list of the codes as the handler joins it. -/
theorem keyCodes_eq_joinCodes (str : String) (hne : str.length ≠ 0) :
    keyCodes str = joinCodes (upperCodes str) := by
  apply String.ext
  rw [keyCodes_data str hne, joinCodes_data, codePieces_eq]

theorem sepJoin_snoc (p x : List Char) (ps : List (List Char)) :
    sepJoin (p :: ps ++ [x]) = sepJoin (p :: ps) ++ ',' :: x := by
  simp only [sepJoin, List.cons_append, List.append_assoc]
  congr 1
  induction ps with
  | nil => simp [sepTail]
  | cons q qs ih => simp [sepTail, ih]

/-- Registration reads back the codes that the handler joins into the key. -/
theorem codeArr_joinCodes (codes : List Nat) (hne : codes ≠ [])
    (h : ∀ n ∈ codes, (∀ x ∈ (toString n).data, x ≠ ',') ∧ parseInt (toString n) = some n) :
    codeArr (joinCodes codes) = codes.map some := by
  cases codes with
  | nil => exact absurd rfl hne
  | cons n ns =>
    have e : (toString n).data :: List.map (fun n => (toString n).data) ns =
        List.map (fun n => (toString n).data) (n :: ns) := rfl
    unfold codeArr split
    rw [joinCodes_data, List.map_cons, splitAux_sepJoin]
    · rw [e, List.map_map, List.map_map]
      apply List.map_congr_left
      intro m hm
      exact (h m hm).2
    · intro q hq c hc
      rw [e] at hq
      obtain ⟨m, hm, rfl⟩ := List.mem_map.mp hq
      exact (h m hm).1 c hc

/-- C16: for every non-empty string of ASCII letters, `keyCodes` gives the decimal character
codes of the upper-cased string with a comma between two of them: as many codes as the
string has characters, each between 65 and 90, and no comma at the end;
`keyCodesPlusEnter` gives that followed by `",13"`. Splitting either key at the commas and
parsing the pieces, as the registration does, gives these codes, and joining them with
commas, as the handler does, gives the key again. The same holds of the six keys of the
two maps. -/
theorem keyCodes_roundtrip (str : String) (hne : str.length ≠ 0)
    (hal : ∀ c ∈ str.data, c.isAlpha = true) :
    keyCodes str = ",".intercalate ((upperCodes str).map toString) ∧
      (upperCodes str).length = str.length ∧
      (∀ n ∈ upperCodes str, 65 ≤ n ∧ n ≤ 90) ∧
      (keyCodes str).data.getLast? ≠ some ',' ∧
      keyCodesPlusEnter str = keyCodes str ++ ",13" ∧
      codeArr (keyCodes str) = (upperCodes str).map some ∧
      joinCodes (upperCodes str) = keyCodes str ∧
      codeArr (keyCodesPlusEnter str) = (upperCodes str ++ [13]).map some ∧
      joinCodes (upperCodes str ++ [13]) = keyCodesPlusEnter str ∧
      (∀ p ∈ codesMap ++ repeatingCodesMap,
        (codeArr p.1).all Option.isSome = true ∧
          joinCodes ((codeArr p.1).map (fun code => code.getD 0)) = p.1) := by
  have hrange : ∀ n ∈ upperCodes str, 65 ≤ n ∧ n ≤ 90 := by
    intro n hn
    obtain ⟨c, hc, rfl⟩ := List.mem_map.mp hn
    exact letter_code c (hal c hc)
  have hlen : (upperCodes str).length = str.length := by
    unfold upperCodes
    rw [List.length_map]
    rfl
  have hnil : upperCodes str ≠ [] := by
    intro h
    rw [h] at hlen
    exact hne hlen.symm
  have hkey := keyCodes_eq_joinCodes str hne
  have hnote : ∀ n ∈ upperCodes str,
      (∀ x ∈ (toString n).data, x ≠ ',') ∧ parseInt (toString n) = some n := by
    intro n hn
    have h := code_digits n (hrange n hn).1 (hrange n hn).2
    exact ⟨h.1, h.2.1⟩
  have hnote13 : ∀ n ∈ upperCodes str ++ [13],
      (∀ x ∈ (toString n).data, x ≠ ',') ∧ parseInt (toString n) = some n := by
    intro n hn
    rcases List.mem_append.mp hn with h | h
    · exact hnote n h
    · have h13 : n = 13 := by simpa using h
      subst h13
      exact ⟨enter_digits.1, enter_digits.2.1⟩
  have hplus : keyCodesPlusEnter str = joinCodes (upperCodes str ++ [13]) := by
    apply String.ext
    unfold keyCodesPlusEnter
    rw [String.data_append, hkey, joinCodes_data, joinCodes_data, List.map_append]
    cases hc : upperCodes str with
    | nil => exact absurd hc hnil
    | cons n ns =>
      simp only [List.map_cons, List.map_nil]
      rw [sepJoin_snoc]
      rfl
  have hlast : (keyCodes str).data.getLast? ≠ some ',' := by
    rw [keyCodes_data str hne, codePieces_eq]
    rcases List.eq_nil_or_concat ((upperCodes str).map (fun n => (toString n).data)) with
      h | ⟨L, b, h⟩
    · exact absurd (List.map_eq_nil_iff.mp h) hnil
    · rw [List.concat_eq_append] at h
      have hb : b ∈ (upperCodes str).map (fun n => (toString n).data) := by
        rw [h]
        simp
      obtain ⟨n, hn, rfl⟩ := List.mem_map.mp hb
      have hcode := code_digits n (hrange n hn).1 (hrange n hn).2
      rw [h, ← sepEach_append, List.getLast?_append_of_ne_nil _ hcode.2.2]
      intro hcomma
      exact hcode.1 _ (List.mem_of_getLast?_eq_some hcomma) rfl
  refine ⟨hkey, hlen, hrange, hlast, rfl, ?_, hkey.symm, ?_, hplus.symm, by decide⟩
  · rw [hkey]
    exact codeArr_joinCodes _ hnil hnote
  · rw [hplus]
    exact codeArr_joinCodes _ (by simp) hnote13

/-- An instance: the key of `"kill"`, alone and followed by Enter. -/
theorem keyCodes_roundtrip_witness :
    (("kill" : String).length ≠ 0 ∧ ∀ c ∈ ("kill" : String).data, c.isAlpha = true) ∧
      keyCodes "kill" = "75,73,76,76" ∧ upperCodes "kill" = [75, 73, 76, 76] ∧
      keyCodesPlusEnter "kill" = "75,73,76,76,13" ∧
      codeArr (keyCodes "kill") = [some 75, some 73, some 76, some 76] ∧
      codeArr (keyCodesPlusEnter "kill") = [some 75, some 73, some 76, some 76, some 13] ∧
      joinCodes [75, 73, 76, 76, 13] = keyCodesPlusEnter "kill" := by
  have h0 : ("kill" : String).length ≠ 0 := by decide
  have h1 : ∀ c ∈ ("kill" : String).data, c.isAlpha = true := by decide
  have h := keyCodes_roundtrip "kill" h0 h1
  have e : upperCodes "kill" = [75, 73, 76, 76] := by decide
  obtain ⟨-, -, -, -, -, h6, -, h8, h9, -⟩ := h
  rw [e] at h6 h8 h9
  exact ⟨⟨h0, h1⟩, by decide, e, by decide, h6, h8, h9⟩

end StarCollector
